import Mathlib

/-!
Verification development for the OSM / Stadia Maps tile downloader scripts
(osm_downloader.py and downloader.py).

The geographic part of the scripts delegates to the mercantile library
(mercantile.tile, mercantile.ul, mercantile.tiles); those library functions are
embedded here over the real numbers from their standard Web Mercator formulas.
mercantile adds tiny nudges (EPSILON = 1e-14, LL_EPSILON = 1e-11) to compensate
for float roundoff; this exact real-number model omits those nudges.

The tile download loop is embedded as a pure fold over the tile list, with the
HTTP layer and the image decoder supplied as oracles, so that cache reads,
cache writes, counter updates and canvas pastes can be reasoned about exactly.
-/

namespace OSMDL

/-- Python int() truncates toward zero: floor for nonnegative reals and
ceiling for negative ones. -/
noncomputable def pyInt (x : ℝ) : ℤ := if 0 ≤ x then ⌊x⌋ else ⌈x⌉

/-- Normalized Web Mercator x coordinate of a longitude, from mercantile._xy:
x = lng / 360.0 + 0.5. -/
noncomputable def xnorm (lng : ℝ) : ℝ := lng / 360 + 1 / 2

/-- Sine of a latitude given in degrees, from mercantile._xy:
sinlat = math.sin(math.radians(lat)). -/
noncomputable def sinlat (lat : ℝ) : ℝ := Real.sin (lat * Real.pi / 180)

/-- Normalized Web Mercator y coordinate of a latitude, from mercantile._xy:
y = 0.5 - 0.25 * log((1 + sinlat) / (1 - sinlat)) / pi. -/
noncomputable def ynorm (lat : ℝ) : ℝ :=
  1 / 2 - Real.log ((1 + sinlat lat) / (1 - sinlat lat)) / (4 * Real.pi)

/-- Tile x index of a longitude, from mercantile.tile: clamp outside [0, 1),
otherwise the floor of the scaled normalized coordinate. -/
noncomputable def tileX (lng : ℝ) (z : ℕ) : ℤ :=
  if xnorm lng ≤ 0 then 0
  else if 1 ≤ xnorm lng then 2 ^ z - 1
  else ⌊xnorm lng * 2 ^ z⌋

/-- Tile y index of a latitude, from mercantile.tile. -/
noncomputable def tileY (lat : ℝ) (z : ℕ) : ℤ :=
  if ynorm lat ≤ 0 then 0
  else if 1 ≤ ynorm lat then 2 ^ z - 1
  else ⌊ynorm lat * 2 ^ z⌋

/-- mercantile.tile(lng, lat, zoom): the (x, y) tile containing a point. -/
noncomputable def tileF (lng lat : ℝ) (z : ℕ) : ℤ × ℤ := (tileX lng z, tileY lat z)

/-- Longitude of the upper-left (northwest) corner of a tile, from
mercantile.ul: lon_deg = xtile / Z2 * 360.0 - 180.0. -/
noncomputable def ulLng (x : ℤ) (z : ℕ) : ℝ := x / 2 ^ z * 360 - 180

/-- Latitude in degrees of the upper-left (northwest) corner of a tile, from
mercantile.ul: lat_deg = degrees(atan(sinh(pi * (1 - 2 * ytile / Z2)))). -/
noncomputable def ulLat (y : ℤ) (z : ℕ) : ℝ :=
  Real.arctan (Real.sinh (Real.pi * (1 - 2 * y / 2 ^ z))) * 180 / Real.pi

/-- The doubly nested yield loop of mercantile.tiles: every (x, y) with
ul.1 ≤ x ≤ lr.1 and ul.2 ≤ y ≤ lr.2, in x-major order as in the source. -/
def tileRect (ul lr : ℤ × ℤ) : List (ℤ × ℤ) :=
  (List.range (lr.1 - ul.1 + 1).toNat).flatMap fun (i : ℕ) =>
    (List.range (lr.2 - ul.2 + 1).toNat).map fun (j : ℕ) => (ul.1 + (i : ℤ), ul.2 + (j : ℤ))

/-- One clamped segment of mercantile.tiles: clamp the box to the Web Mercator
domain, take the tile of the clamped northwest corner and of the clamped
southeast corner, and enumerate the rectangle between them. -/
noncomputable def tilesSeg (w s e n : ℝ) (z : ℕ) : List (ℤ × ℤ) :=
  tileRect (tileF (max (-180) w) (min 85.051129 n) z)
    (tileF (min 180 e) (max (-85.051129) s) z)

/-- mercantile.tiles(west, south, east, north, [zoom]): a box crossing the
antimeridian is split into two segments, western part first. -/
noncomputable def tilesFn (w s e n : ℝ) (z : ℕ) : List (ℤ × ℤ) :=
  if e < w then tilesSeg (-180) s e n z ++ tilesSeg w s 180 n z
  else tilesSeg w s e n z

/-- Python min over a list of integers; 0 for the empty list, where the script
would raise instead (the scripts only evaluate it on nonempty lists). -/
def listMinD : List ℤ → ℤ
  | [] => 0
  | a :: r => r.foldl min a

/-- Python max over a list of integers; 0 for the empty list. -/
def listMaxD : List ℤ → ℤ
  | [] => 0
  | a :: r => r.foldl max a

/-- The immutable bounding box constants of the scripts. -/
structure Box where
  latMin : ℝ
  lonMin : ℝ
  latMax : ℝ
  lonMax : ℝ

/-- tiles = list(mercantile.tiles(lon_min, lat_min, lon_max, lat_max, zoom)). -/
noncomputable def scriptTiles (b : Box) (z : ℕ) : List (ℤ × ℤ) :=
  tilesFn b.lonMin b.latMin b.lonMax b.latMax z

/-- x_offset = min(t.x for t in tiles). -/
noncomputable def x_offset (b : Box) (z : ℕ) : ℤ :=
  listMinD ((scriptTiles b z).map Prod.fst)

/-- y_offset = min(t.y for t in tiles). -/
noncomputable def y_offset (b : Box) (z : ℕ) : ℤ :=
  listMinD ((scriptTiles b z).map Prod.snd)

/-- cols = max(t.x for t in tiles) - min(t.x for t in tiles) + 1. -/
noncomputable def cols (b : Box) (z : ℕ) : ℤ :=
  listMaxD ((scriptTiles b z).map Prod.fst) - listMinD ((scriptTiles b z).map Prod.fst) + 1

/-- rows = max(t.y for t in tiles) - min(t.y for t in tiles) + 1. -/
noncomputable def rows (b : Box) (z : ℕ) : ℤ :=
  listMaxD ((scriptTiles b z).map Prod.snd) - listMinD ((scriptTiles b z).map Prod.snd) + 1

/-- Width in pixels of Image.new(RGB, (cols * tile_size, rows * tile_size)). -/
noncomputable def canvasWidth (b : Box) (z : ℕ) : ℤ := cols b z * 256

/-- Height in pixels of the canvas. -/
noncomputable def canvasHeight (b : Box) (z : ℕ) : ℤ := rows b z * 256

/-- Body of lat_lon_to_pixel with the script globals zoom, x_offset and
y_offset passed explicitly: locate the tile of the point, interpolate linearly
between the northwest corner coordinates of the tile and of its x+1 and y+1
neighbours, convert to canvas pixels and truncate with int(). -/
noncomputable def lat_lon_to_pixel (z : ℕ) (xoff yoff : ℤ) (lat lon : ℝ) : ℤ × ℤ :=
  let t := tileF lon lat z
  let nwLng := ulLng t.1 z
  let nwLat := ulLat t.2 z
  let fracX := (lon - nwLng) / (ulLng (t.1 + 1) z - nwLng)
  let fracY := (nwLat - lat) / (nwLat - ulLat (t.2 + 1) z)
  (pyInt ((t.1 - xoff) * 256 + fracX * 256), pyInt ((t.2 - yoff) * 256 + fracY * 256))

/-- lat_lon_to_pixel as the script calls it, with its own globals. -/
noncomputable def scriptPixel (b : Box) (z : ℕ) (lat lon : ℝ) : ℤ × ℤ :=
  lat_lon_to_pixel z (x_offset b z) (y_offset b z) lat lon

/-- left, bottom = lat_lon_to_pixel(lat_min, lon_min). -/
noncomputable def leftPx (b : Box) (z : ℕ) : ℤ := (scriptPixel b z b.latMin b.lonMin).1

/-- Second component of lat_lon_to_pixel(lat_min, lon_min). -/
noncomputable def bottomPx (b : Box) (z : ℕ) : ℤ := (scriptPixel b z b.latMin b.lonMin).2

/-- right, top = lat_lon_to_pixel(lat_max, lon_max). -/
noncomputable def rightPx (b : Box) (z : ℕ) : ℤ := (scriptPixel b z b.latMax b.lonMax).1

/-- Second component of lat_lon_to_pixel(lat_max, lon_max). -/
noncomputable def topPx (b : Box) (z : ℕ) : ℤ := (scriptPixel b z b.latMax b.lonMax).2

/-- The box handed to image.crop: (left, top, right, bottom). -/
noncomputable def cropBox (b : Box) (z : ℕ) : ℤ × ℤ × ℤ × ℤ :=
  (leftPx b z, topPx b z, rightPx b z, bottomPx b z)

/-- Width of image.crop((left, top, right, bottom)): PIL gives right - left. -/
noncomputable def croppedWidth (b : Box) (z : ℕ) : ℤ := rightPx b z - leftPx b z

/-- Height of the cropped image: bottom - top. -/
noncomputable def croppedHeight (b : Box) (z : ℕ) : ℤ := bottomPx b z - topPx b z

/-- Hypotheses of a well-formed box: inside the clamping bounds and correctly
ordered, so the mercantile clamps are the identity. -/
def NiceBox (b : Box) : Prop :=
  -180 ≤ b.lonMin ∧ b.lonMin ≤ b.lonMax ∧ b.lonMax ≤ 180 ∧
    -85.051129 ≤ b.latMin ∧ b.latMin ≤ b.latMax ∧ b.latMax ≤ 85.051129

/-- Global (offset-free) vertical pixel coordinate of a latitude: the tile row
of the latitude scaled by 256 plus the linear fraction of lat_lon_to_pixel
scaled by 256.  The y component of lat_lon_to_pixel is this quantity shifted
down by 256 * y_offset and truncated. -/
noncomputable def gpixY (z : ℕ) (lat : ℝ) : ℝ :=
  (tileY lat z : ℝ) * 256 +
    (ulLat (tileY lat z) z - lat) /
      (ulLat (tileY lat z) z - ulLat (tileY lat z + 1) z) * 256

/-- Outcome of requests.get on one tile URL: a body with an HTTP status code,
or an exception raised by the call. -/
inductive HttpResult (B : Type) where
  | success (body : B)
  | httpError (code : ℕ)
  | netError
deriving DecidableEq

/-- The external world of one run: the HTTP layer and the image decoder.
A cache filename is determined by (server choice, key hash, z, x, y); within a
single run the server, key and zoom are fixed, so cache entries are keyed here
by the (x, y) tile coordinates. decode returns none when Image.open raises. -/
structure Env (B I : Type) where
  http : ℤ × ℤ → HttpResult B
  decode : B → Option I

/-- Mutable state of the download loop. The canvas is the ordered log of
image.paste calls (position, image); cache is the tile cache directory;
the counters mirror successful_downloads, failed_downloads, cached_tiles; and
requests / sleeps count requests.get and time.sleep calls. -/
structure LoopState (B I : Type) where
  canvas : List ((ℤ × ℤ) × I)
  cache : ℤ × ℤ → Option B
  successful_downloads : ℕ
  failed_downloads : ℕ
  cached_tiles : ℕ
  requests : ℕ
  sleeps : ℕ

/-- px, py = ((x - x_offset) * tile_size, (y - y_offset) * tile_size). -/
def pastePos (xoff yoff : ℤ) (t : ℤ × ℤ) : ℤ × ℤ :=
  ((t.1 - xoff) * 256, (t.2 - yoff) * 256)

/-- Download branch of the osm_downloader.py loop body (lines 190-222):
time.sleep(REQUEST_DELAY), then requests.get; on status 200 the raw response
bytes are written to the cache file first, and only then decoded; a decode
exception is caught by the enclosing except block after the write, so it
counts as failed with the bad bytes left in the cache.  A non-200 status or a
network exception counts as failed with no write and no paste. -/
def osmDownload {B I : Type} (E : Env B I) (xoff yoff : ℤ)
    (st : LoopState B I) (t : ℤ × ℤ) : LoopState B I :=
  let st1 := { st with sleeps := st.sleeps + 1, requests := st.requests + 1 }
  match E.http t with
  | .success b =>
    let st2 := { st1 with cache := fun k => if k = t then some b else st1.cache k }
    match E.decode b with
    | some img =>
      { st2 with
        canvas := st2.canvas ++ [(pastePos xoff yoff t, img)]
        successful_downloads := st2.successful_downloads + 1 }
    | none => { st2 with failed_downloads := st2.failed_downloads + 1 }
  | .httpError _ => { st1 with failed_downloads := st1.failed_downloads + 1 }
  | .netError => { st1 with failed_downloads := st1.failed_downloads + 1 }

/-- One iteration of the osm_downloader.py tile loop (lines 164-222): if the
cache file exists, try to decode and paste it (counting cached_tiles); if the
cached decode raises, the error is printed and control falls through to the
download branch; if there is no cache file, download. -/
def osmStep {B I : Type} (E : Env B I) (xoff yoff : ℤ)
    (st : LoopState B I) (t : ℤ × ℤ) : LoopState B I :=
  match st.cache t with
  | some b =>
    match E.decode b with
    | some img =>
      { st with
        canvas := st.canvas ++ [(pastePos xoff yoff t, img)]
        cached_tiles := st.cached_tiles + 1 }
    | none => osmDownload E xoff yoff st t
  | none => osmDownload E xoff yoff st t

/-- One iteration of the downloader.py tile loop (lines 36-62): no cache and
no sleep; requests.get on every tile; on status 200 decode and paste (a decode
exception is caught and counts as failed); otherwise count as failed. -/
def dlStep {B I : Type} (E : Env B I) (xoff yoff : ℤ)
    (st : LoopState B I) (t : ℤ × ℤ) : LoopState B I :=
  let st1 := { st with requests := st.requests + 1 }
  match E.http t with
  | .success b =>
    match E.decode b with
    | some img =>
      { st1 with
        canvas := st1.canvas ++ [(pastePos xoff yoff t, img)]
        successful_downloads := st1.successful_downloads + 1 }
    | none => { st1 with failed_downloads := st1.failed_downloads + 1 }
  | .httpError _ => { st1 with failed_downloads := st1.failed_downloads + 1 }
  | .netError => { st1 with failed_downloads := st1.failed_downloads + 1 }

/-- The whole osm_downloader.py tile loop: a sequential left fold, each
iteration running to completion before the next starts. -/
def osmRun {B I : Type} (E : Env B I) (xoff yoff : ℤ)
    (tiles : List (ℤ × ℤ)) (st : LoopState B I) : LoopState B I :=
  tiles.foldl (osmStep E xoff yoff) st

/-- The whole downloader.py tile loop. -/
def dlRun {B I : Type} (E : Env B I) (xoff yoff : ℤ)
    (tiles : List (ℤ × ℤ)) (st : LoopState B I) : LoopState B I :=
  tiles.foldl (dlStep E xoff yoff) st

/-- State before the loop: empty canvas, all counters zero, and the given
initial content of the tile_cache directory. -/
def startState {B I : Type} (cache0 : ℤ × ℤ → Option B) : LoopState B I :=
  { canvas := [], cache := cache0, successful_downloads := 0
    failed_downloads := 0, cached_tiles := 0, requests := 0, sleeps := 0 }

/-- API key handling of osm_downloader.py lines 104-117: when the chosen
server requires a key, the prompt answer is stripped; an empty result hits
sys.exit(1), modelled as Except.error; otherwise the stripped key is kept.
Servers that need no key skip the prompt and leave api_key = None. -/
def resolveApiKey (requiresKey : Bool) (rawInput : String) : Except Unit (Option String) :=
  if requiresKey then
    if rawInput.trim = "" then Except.error ()
    else Except.ok (some rawInput.trim)
  else Except.ok none

/-- Request headers of osm_downloader.py lines 193-200: always the User-Agent;
the Authorization Bearer header is added when api_key is truthy (set and
nonempty) and the server requires a key. -/
def requestHeaders (userAgent : String) (requiresKey : Bool)
    (apiKey : Option String) : List (String × String) :=
  [("User-Agent", userAgent)] ++
    match apiKey with
    | some k => if k ≠ "" ∧ requiresKey = true then [("Authorization", "Bearer " ++ k)] else []
    | none => []

/-- Program order of osm_downloader.py: the API key gate (lines 104-117) runs
before tile enumeration (line 141) and before the download loop, so a fatal
key error yields no tile list at all. -/
noncomputable def programTiles (requiresKey : Bool) (rawInput : String)
    (b : Box) (z : ℕ) : Except Unit (List (ℤ × ℤ)) :=
  match resolveApiKey requiresKey rawInput with
  | .error e => .error e
  | .ok _ => .ok (scriptTiles b z)

/-- The paste produced by the download branch for one tile: the decoded body
on a 200 response, nothing on an error. -/
def dlPaste {B I : Type} (decode : B → Option I) (h : HttpResult B) : Option I :=
  match h with
  | .success b => decode b
  | .httpError _ => none
  | .netError => none

/-- The paste produced by one full osm_downloader.py iteration, as a function
of the pre-state cache entry of the tile and of its HTTP outcome: a decodable
cached file wins, otherwise the download branch decides. -/
def tilePaste {B I : Type} (decode : B → Option I) (cb : Option B) (h : HttpResult B) :
    Option I :=
  match cb with
  | some b =>
    match decode b with
    | some img => some img
    | none => dlPaste decode h
  | none => dlPaste decode h

/-- The cache entry of a tile after the download branch: the raw body is
written on a 200 response (before any decode attempt), otherwise untouched. -/
def dlWrite {B : Type} (cb : Option B) (h : HttpResult B) : Option B :=
  match h with
  | .success b => some b
  | .httpError _ => cb
  | .netError => cb

/-- The cache entry of a tile after one full osm_downloader.py iteration. -/
def tileCacheNext {B I : Type} (decode : B → Option I) (cb : Option B) (h : HttpResult B) :
    Option B :=
  match cb with
  | some b =>
    match decode b with
    | some _ => some b
    | none => dlWrite cb h
  | none => dlWrite cb h

/-- Concrete environment for witnesses: every request returns body 5 and
every body decodes to itself. -/
def envW : Env ℕ ℕ :=
  { http := fun _ => .success 5, decode := fun b => some b }

/-- Concrete environment with an undecodable byte value 0: requests return
the decodable body 1, but any cached 0 fails to decode. -/
def envC3 : Env ℕ ℕ :=
  { http := fun _ => .success 1, decode := fun b => if b = 0 then none else some b }

/-- An initial cache directory holding the undecodable body 0 for every tile. -/
def envC3cache : ℤ × ℤ → Option ℕ := fun _ => some 0

/-- Concrete environment where the server answers 200 with body 7 but nothing
decodes. -/
def envBad : Env ℕ ℕ :=
  { http := fun _ => .success 7, decode := fun _ => none }

lemma foldl_min_le_init (l : List ℤ) (a : ℤ) : l.foldl min a ≤ a := by
  induction l generalizing a with
  | nil => exact le_refl a
  | cons x r ih => exact le_trans (ih (min a x)) (min_le_left a x)

lemma foldl_min_le_mem (l : List ℤ) (a x : ℤ) (hx : x ∈ l) : l.foldl min a ≤ x := by
  induction l generalizing a with
  | nil => cases hx
  | cons y r ih =>
    rcases List.mem_cons.1 hx with h | h
    · subst h
      exact le_trans (foldl_min_le_init r (min a x)) (min_le_right a x)
    · exact ih _ h

lemma foldl_min_mem (l : List ℤ) (a : ℤ) : l.foldl min a = a ∨ l.foldl min a ∈ l := by
  induction l generalizing a with
  | nil => exact Or.inl rfl
  | cons x r ih =>
    rcases ih (min a x) with h | h
    · rcases min_cases a x with ⟨hm, _⟩ | ⟨hm, _⟩
      · exact Or.inl (by rw [List.foldl_cons, h, hm])
      · exact Or.inr (by rw [List.foldl_cons, h, hm]; exact List.mem_cons_self x r)
    · exact Or.inr (List.mem_cons_of_mem x h)

lemma init_le_foldl_max (l : List ℤ) (a : ℤ) : a ≤ l.foldl max a := by
  induction l generalizing a with
  | nil => exact le_refl a
  | cons x r ih => exact le_trans (le_max_left a x) (ih (max a x))

lemma mem_le_foldl_max (l : List ℤ) (a x : ℤ) (hx : x ∈ l) : x ≤ l.foldl max a := by
  induction l generalizing a with
  | nil => cases hx
  | cons y r ih =>
    rcases List.mem_cons.1 hx with h | h
    · subst h
      exact le_trans (le_max_right a x) (init_le_foldl_max r (max a x))
    · exact ih _ h

lemma foldl_max_mem (l : List ℤ) (a : ℤ) : l.foldl max a = a ∨ l.foldl max a ∈ l := by
  induction l generalizing a with
  | nil => exact Or.inl rfl
  | cons x r ih =>
    rcases ih (max a x) with h | h
    · rcases max_cases a x with ⟨hm, _⟩ | ⟨hm, _⟩
      · exact Or.inl (by rw [List.foldl_cons, h, hm])
      · exact Or.inr (by rw [List.foldl_cons, h, hm]; exact List.mem_cons_self x r)
    · exact Or.inr (List.mem_cons_of_mem x h)

/-- On a nonempty list, listMinD is a member. -/
lemma listMinD_mem {l : List ℤ} (h : l ≠ []) : listMinD l ∈ l := by
  cases l with
  | nil => exact absurd rfl h
  | cons a r =>
    rcases foldl_min_mem r a with h' | h'
    · rw [listMinD, h']; exact List.mem_cons_self a r
    · exact List.mem_cons_of_mem a h'

/-- listMinD is a lower bound of the list. -/
lemma listMinD_le {l : List ℤ} {x : ℤ} (hx : x ∈ l) : listMinD l ≤ x := by
  cases l with
  | nil => cases hx
  | cons a r =>
    rcases List.mem_cons.1 hx with h | h
    · subst h; exact foldl_min_le_init r x
    · exact foldl_min_le_mem r a x h

/-- On a nonempty list, listMaxD is a member. -/
lemma listMaxD_mem {l : List ℤ} (h : l ≠ []) : listMaxD l ∈ l := by
  cases l with
  | nil => exact absurd rfl h
  | cons a r =>
    rcases foldl_max_mem r a with h' | h'
    · rw [listMaxD, h']; exact List.mem_cons_self a r
    · exact List.mem_cons_of_mem a h'

/-- listMaxD is an upper bound of the list. -/
lemma le_listMaxD {l : List ℤ} {x : ℤ} (hx : x ∈ l) : x ≤ listMaxD l := by
  cases l with
  | nil => cases hx
  | cons a r =>
    rcases List.mem_cons.1 hx with h | h
    · subst h; exact init_le_foldl_max r x
    · exact mem_le_foldl_max r a x h

/-- Membership in the enumerated tile rectangle. -/
lemma mem_tileRect {ul lr p : ℤ × ℤ} :
    p ∈ tileRect ul lr ↔ ul.1 ≤ p.1 ∧ p.1 ≤ lr.1 ∧ ul.2 ≤ p.2 ∧ p.2 ≤ lr.2 := by
  constructor
  · intro hp
    rcases List.mem_flatMap.1 hp with ⟨i, hi, hp2⟩
    rcases List.mem_map.1 hp2 with ⟨j, hj, he⟩
    rw [List.mem_range] at hi hj
    rw [← he]
    refine ⟨by simp, by simp; omega, by simp, by simp; omega⟩
  · intro hb
    obtain ⟨h1, h2, h3, h4⟩ := hb
    refine List.mem_flatMap.2 ⟨(p.1 - ul.1).toNat, List.mem_range.2 (by omega), ?_⟩
    refine List.mem_map.2 ⟨(p.2 - ul.2).toNat, List.mem_range.2 (by omega), ?_⟩
    have e1 : ((p.1 - ul.1).toNat : ℤ) = p.1 - ul.1 := by omega
    have e2 : ((p.2 - ul.2).toNat : ℤ) = p.2 - ul.2 := by omega
    rw [e1, e2]
    ext <;> simp

/-- A nonempty rectangle contains its northwest corner tile. -/
lemma ul_mem_tileRect {ul lr : ℤ × ℤ} (h1 : ul.1 ≤ lr.1) (h2 : ul.2 ≤ lr.2) :
    ul ∈ tileRect ul lr :=
  mem_tileRect.2 ⟨le_refl _, h1, le_refl _, h2⟩

/-- A nonempty rectangle contains its southeast corner tile. -/
lemma lr_mem_tileRect {ul lr : ℤ × ℤ} (h1 : ul.1 ≤ lr.1) (h2 : ul.2 ≤ lr.2) :
    lr ∈ tileRect ul lr :=
  mem_tileRect.2 ⟨h1, le_refl _, h2, le_refl _⟩

/-- The minimum x over a nonempty tile rectangle is the northwest corner x. -/
lemma minFst_tileRect {ul lr : ℤ × ℤ} (h1 : ul.1 ≤ lr.1) (h2 : ul.2 ≤ lr.2) :
    listMinD ((tileRect ul lr).map Prod.fst) = ul.1 := by
  have hne : (tileRect ul lr).map Prod.fst ≠ [] := by
    intro h
    have := List.mem_map_of_mem Prod.fst (ul_mem_tileRect h1 h2)
    rw [h] at this
    cases this
  apply le_antisymm
  · exact listMinD_le (List.mem_map_of_mem Prod.fst (ul_mem_tileRect h1 h2))
  · rcases List.mem_map.1 (listMinD_mem hne) with ⟨p, hp, he⟩
    rw [← he]
    exact (mem_tileRect.1 hp).1

/-- The minimum y over a nonempty tile rectangle is the northwest corner y. -/
lemma minSnd_tileRect {ul lr : ℤ × ℤ} (h1 : ul.1 ≤ lr.1) (h2 : ul.2 ≤ lr.2) :
    listMinD ((tileRect ul lr).map Prod.snd) = ul.2 := by
  have hne : (tileRect ul lr).map Prod.snd ≠ [] := by
    intro h
    have := List.mem_map_of_mem Prod.snd (ul_mem_tileRect h1 h2)
    rw [h] at this
    cases this
  apply le_antisymm
  · exact listMinD_le (List.mem_map_of_mem Prod.snd (ul_mem_tileRect h1 h2))
  · rcases List.mem_map.1 (listMinD_mem hne) with ⟨p, hp, he⟩
    rw [← he]
    exact (mem_tileRect.1 hp).2.2.1

/-- The maximum x over a nonempty tile rectangle is the southeast corner x. -/
lemma maxFst_tileRect {ul lr : ℤ × ℤ} (h1 : ul.1 ≤ lr.1) (h2 : ul.2 ≤ lr.2) :
    listMaxD ((tileRect ul lr).map Prod.fst) = lr.1 := by
  have hne : (tileRect ul lr).map Prod.fst ≠ [] := by
    intro h
    have := List.mem_map_of_mem Prod.fst (lr_mem_tileRect h1 h2)
    rw [h] at this
    cases this
  apply le_antisymm
  · rcases List.mem_map.1 (listMaxD_mem hne) with ⟨p, hp, he⟩
    rw [← he]
    exact (mem_tileRect.1 hp).2.1
  · exact le_listMaxD (List.mem_map_of_mem Prod.fst (lr_mem_tileRect h1 h2))

/-- The maximum y over a nonempty tile rectangle is the southeast corner y. -/
lemma maxSnd_tileRect {ul lr : ℤ × ℤ} (h1 : ul.1 ≤ lr.1) (h2 : ul.2 ≤ lr.2) :
    listMaxD ((tileRect ul lr).map Prod.snd) = lr.2 := by
  have hne : (tileRect ul lr).map Prod.snd ≠ [] := by
    intro h
    have := List.mem_map_of_mem Prod.snd (lr_mem_tileRect h1 h2)
    rw [h] at this
    cases this
  apply le_antisymm
  · rcases List.mem_map.1 (listMaxD_mem hne) with ⟨p, hp, he⟩
    rw [← he]
    exact (mem_tileRect.1 hp).2.2.2
  · exact le_listMaxD (List.mem_map_of_mem Prod.snd (lr_mem_tileRect h1 h2))

/-- pyInt agrees with the floor on nonnegative values. -/
lemma pyInt_eq_floor {x : ℝ} (h : 0 ≤ x) : pyInt x = ⌊x⌋ := if_pos h

/-- The clamp-or-floor branch of mercantile.tile is monotone in the normalized
coordinate. -/
lemma clampFloor_mono {u v : ℝ} (z : ℕ) (h : u ≤ v) :
    (if u ≤ 0 then (0 : ℤ) else if 1 ≤ u then 2 ^ z - 1 else ⌊u * 2 ^ z⌋) ≤
      (if v ≤ 0 then (0 : ℤ) else if 1 ≤ v then 2 ^ z - 1 else ⌊v * 2 ^ z⌋) := by
  have hz : (0 : ℝ) < 2 ^ z := by positivity
  have hz1 : (0 : ℤ) < 2 ^ z := by positivity
  by_cases hu0 : u ≤ 0
  · rw [if_pos hu0]
    by_cases hv0 : v ≤ 0
    · rw [if_pos hv0]
    · rw [if_neg hv0]
      push_neg at hv0
      by_cases hv1 : 1 ≤ v
      · rw [if_pos hv1]; omega
      · rw [if_neg hv1]
        exact Int.floor_nonneg.2 (le_of_lt (mul_pos hv0 hz))
  · rw [if_neg hu0]
    push_neg at hu0
    have hv0 : ¬ v ≤ 0 := by linarith
    rw [if_neg hv0]
    by_cases hu1 : 1 ≤ u
    · rw [if_pos hu1, if_pos (le_trans hu1 h)]
    · rw [if_neg hu1]
      push_neg at hu1
      by_cases hv1 : 1 ≤ v
      · rw [if_pos hv1]
        have : u * 2 ^ z < 1 * 2 ^ z := by nlinarith
        have hf : ⌊u * 2 ^ z⌋ < 2 ^ z := Int.floor_lt.2 (by push_cast; linarith)
        omega
      · rw [if_neg hv1]
        exact Int.floor_le_floor (by nlinarith)

/-- In the interior of the normalized range the branch is the plain floor
(also at exactly 0, where the clamp and the floor agree). -/
lemma clampFloor_eq_floor {u : ℝ} (z : ℕ) (h0 : 0 ≤ u) (h1 : u < 1) :
    (if u ≤ 0 then (0 : ℤ) else if 1 ≤ u then 2 ^ z - 1 else ⌊u * 2 ^ z⌋) = ⌊u * 2 ^ z⌋ := by
  by_cases hu0 : u ≤ 0
  · have : u = 0 := le_antisymm hu0 h0
    subst this
    simp
  · rw [if_neg hu0, if_neg (by linarith)]

/-- xnorm is monotone in the longitude. -/
lemma xnorm_mono {a b : ℝ} (h : a ≤ b) : xnorm a ≤ xnorm b := by
  unfold xnorm; linarith

/-- tileX through the normalized coordinate. -/
lemma tileX_def (lng : ℝ) (z : ℕ) :
    tileX lng z =
      (if xnorm lng ≤ 0 then (0 : ℤ) else if 1 ≤ xnorm lng then 2 ^ z - 1
        else ⌊xnorm lng * 2 ^ z⌋) := rfl

/-- tileY through the normalized coordinate. -/
lemma tileY_def (lat : ℝ) (z : ℕ) :
    tileY lat z =
      (if ynorm lat ≤ 0 then (0 : ℤ) else if 1 ≤ ynorm lat then 2 ^ z - 1
        else ⌊ynorm lat * 2 ^ z⌋) := rfl

/-- tileX is monotone in the longitude. -/
lemma tileX_mono {a b : ℝ} (z : ℕ) (h : a ≤ b) : tileX a z ≤ tileX b z := by
  rw [tileX_def, tileX_def]
  exact clampFloor_mono z (xnorm_mono h)

/-- tileX is the floor of the scaled normalized coordinate inside the range. -/
lemma tileX_eq_floor {lng : ℝ} (z : ℕ) (h0 : 0 ≤ xnorm lng) (h1 : xnorm lng < 1) :
    tileX lng z = ⌊xnorm lng * 2 ^ z⌋ := by
  rw [tileX_def]; exact clampFloor_eq_floor z h0 h1

/-- tileY is monotone in the normalized Mercator coordinate. -/
lemma tileY_mono_ynorm {a b : ℝ} (z : ℕ) (h : ynorm a ≤ ynorm b) :
    tileY a z ≤ tileY b z := by
  rw [tileY_def, tileY_def]
  exact clampFloor_mono z h

/-- tileY is the floor of the scaled normalized coordinate inside the range. -/
lemma tileY_eq_floor {lat : ℝ} (z : ℕ) (h0 : 0 ≤ ynorm lat) (h1 : ynorm lat < 1) :
    tileY lat z = ⌊ynorm lat * 2 ^ z⌋ := by
  rw [tileY_def]; exact clampFloor_eq_floor z h0 h1

/-- Latitudes in [-90, 90] scale to angles in [-pi/2, pi/2]. -/
lemma rad_mem {lat : ℝ} (h1 : -90 ≤ lat) (h2 : lat ≤ 90) :
    lat * Real.pi / 180 ∈ Set.Icc (-(Real.pi / 2)) (Real.pi / 2) := by
  have hp : (0 : ℝ) < Real.pi := Real.pi_pos
  constructor
  · have := mul_le_mul_of_nonneg_right h1 (le_of_lt (by positivity : (0:ℝ) < Real.pi / 180))
    calc -(Real.pi / 2) = -90 * (Real.pi / 180) := by ring
    _ ≤ lat * (Real.pi / 180) := this
    _ = lat * Real.pi / 180 := by ring
  · have := mul_le_mul_of_nonneg_right h2 (le_of_lt (by positivity : (0:ℝ) < Real.pi / 180))
    calc lat * Real.pi / 180 = lat * (Real.pi / 180) := by ring
    _ ≤ 90 * (Real.pi / 180) := this
    _ = Real.pi / 2 := by ring

/-- sinlat is strictly monotone on [-90, 90]. -/
lemma sinlat_strictMono {a b : ℝ} (ha : -90 ≤ a) (hb : b ≤ 90) (hab : a < b) :
    sinlat a < sinlat b := by
  have hp : (0 : ℝ) < Real.pi := Real.pi_pos
  unfold sinlat
  refine Real.strictMonoOn_sin (rad_mem ha (by linarith)) (rad_mem (by linarith) hb) ?_
  have : a * (Real.pi / 180) < b * (Real.pi / 180) :=
    mul_lt_mul_of_pos_right hab (by positivity)
  calc a * Real.pi / 180 = a * (Real.pi / 180) := by ring
  _ < b * (Real.pi / 180) := this
  _ = b * Real.pi / 180 := by ring

/-- Strictly south of 90 degrees the latitude sine is below 1. -/
lemma sinlat_lt_one {lat : ℝ} (h1 : -90 ≤ lat) (h2 : lat < 90) : sinlat lat < 1 := by
  have h : sinlat lat < sinlat 90 := sinlat_strictMono h1 (le_refl _) h2
  have : sinlat 90 = 1 := by
    unfold sinlat
    have : (90 : ℝ) * Real.pi / 180 = Real.pi / 2 := by ring
    rw [this, Real.sin_pi_div_two]
  linarith

/-- Strictly north of -90 degrees the latitude sine is above -1. -/
lemma neg_one_lt_sinlat {lat : ℝ} (h1 : -90 < lat) (h2 : lat ≤ 90) : -1 < sinlat lat := by
  have h : sinlat (-90) < sinlat lat := sinlat_strictMono (le_refl _) h2 h1
  have : sinlat (-90) = -1 := by
    unfold sinlat
    have : (-90 : ℝ) * Real.pi / 180 = -(Real.pi / 2) := by ring
    rw [this, Real.sin_neg, Real.sin_pi_div_two]
  linarith

/-- The Mercator ratio (1 + s) / (1 - s) is strictly monotone on (-1, 1). -/
lemma mercRatio_strictMono {s1 s2 : ℝ} (_hn1 : -1 < s1) (h2 : s2 < 1) (h : s1 < s2) :
    (1 + s1) / (1 - s1) < (1 + s2) / (1 - s2) := by
  have d1 : (0 : ℝ) < 1 - s1 := by linarith
  have d2 : (0 : ℝ) < 1 - s2 := by linarith
  rw [div_lt_div_iff₀ d1 d2]
  nlinarith

/-- ynorm is strictly antitone between latitudes strictly inside (-90, 90). -/
lemma ynorm_strictAnti {a b : ℝ} (ha : -90 < a) (hb : b < 90) (hab : a < b) :
    ynorm b < ynorm a := by
  have hp : (0 : ℝ) < Real.pi := Real.pi_pos
  have hsa1 : -1 < sinlat a := neg_one_lt_sinlat ha (by linarith)
  have hsb2 : sinlat b < 1 := sinlat_lt_one (by linarith) hb
  have hs : sinlat a < sinlat b := sinlat_strictMono (le_of_lt ha) (le_of_lt hb) hab
  have hra : (0 : ℝ) < (1 + sinlat a) / (1 - sinlat a) := by
    apply div_pos <;> linarith
  have hr : (1 + sinlat a) / (1 - sinlat a) < (1 + sinlat b) / (1 - sinlat b) :=
    mercRatio_strictMono hsa1 hsb2 hs
  have hl : Real.log ((1 + sinlat a) / (1 - sinlat a)) <
      Real.log ((1 + sinlat b) / (1 - sinlat b)) := Real.log_lt_log hra hr
  unfold ynorm
  have h4 : (0 : ℝ) < 4 * Real.pi := by positivity
  have := div_lt_div_of_pos_right hl h4
  linarith

/-- ynorm is antitone between latitudes inside [-90, 90] boundaries excluded
on the relevant side. -/
lemma ynorm_anti {a b : ℝ} (ha : -90 < a) (hb : b < 90) (hab : a ≤ b) :
    ynorm b ≤ ynorm a := by
  rcases eq_or_lt_of_le hab with h | h
  · subst h; exact le_refl _
  · exact le_of_lt (ynorm_strictAnti ha hb h)

/-- Key round trip: the normalized Mercator y of the upper-left corner
latitude of row y at zoom z is exactly y / 2 ^ z. -/
lemma ynorm_ulLat (y : ℤ) (z : ℕ) : ynorm (ulLat y z) = (y : ℝ) / 2 ^ z := by
  have hp : (0 : ℝ) < Real.pi := Real.pi_pos
  set t : ℝ := Real.pi * (1 - 2 * y / 2 ^ z) with ht
  have hcp : (0 : ℝ) < Real.cosh t := Real.cosh_pos t
  have hs : sinlat (ulLat y z) = Real.sinh t / Real.cosh t := by
    unfold sinlat ulLat
    rw [← ht]
    have harg : Real.arctan (Real.sinh t) * 180 / Real.pi * Real.pi / 180
        = Real.arctan (Real.sinh t) := by
      field_simp
    rw [harg, Real.sin_arctan]
    have h2 : (1 : ℝ) + Real.sinh t ^ 2 = Real.cosh t ^ 2 := by
      rw [Real.cosh_sq]; ring
    rw [h2, Real.sqrt_sq hcp.le]
  have hratio : (1 + sinlat (ulLat y z)) / (1 - sinlat (ulLat y z)) = Real.exp (2 * t) := by
    rw [hs]
    have h1 : 1 + Real.sinh t / Real.cosh t = (Real.cosh t + Real.sinh t) / Real.cosh t := by
      field_simp
    have h2 : 1 - Real.sinh t / Real.cosh t = (Real.cosh t - Real.sinh t) / Real.cosh t := by
      field_simp
    rw [h1, h2, div_div_div_cancel_right₀]
    · rw [Real.cosh_add_sinh, Real.cosh_sub_sinh, ← Real.exp_sub]
      congr 1
      ring
    · exact hcp.ne'
  unfold ynorm
  rw [hratio, Real.log_exp, ht]
  field_simp
  ring

/-- Upper-left corner latitudes are strictly south of the north pole. -/
lemma ulLat_lt_90 (y : ℤ) (z : ℕ) : ulLat y z < 90 := by
  have hp : (0 : ℝ) < Real.pi := Real.pi_pos
  unfold ulLat
  have h := Real.arctan_lt_pi_div_two (Real.sinh (Real.pi * (1 - 2 * y / 2 ^ z)))
  have h180 : (0 : ℝ) < 180 / Real.pi := by positivity
  calc Real.arctan (Real.sinh (Real.pi * (1 - 2 * y / 2 ^ z))) * 180 / Real.pi
      = Real.arctan (Real.sinh (Real.pi * (1 - 2 * y / 2 ^ z))) * (180 / Real.pi) := by ring
  _ < Real.pi / 2 * (180 / Real.pi) := mul_lt_mul_of_pos_right h h180
  _ = 90 := by field_simp; ring

/-- Upper-left corner latitudes are strictly north of the south pole. -/
lemma neg_90_lt_ulLat (y : ℤ) (z : ℕ) : -90 < ulLat y z := by
  have hp : (0 : ℝ) < Real.pi := Real.pi_pos
  unfold ulLat
  have h := Real.neg_pi_div_two_lt_arctan (Real.sinh (Real.pi * (1 - 2 * y / 2 ^ z)))
  have h180 : (0 : ℝ) < 180 / Real.pi := by positivity
  calc (-90 : ℝ) = -(Real.pi / 2) * (180 / Real.pi) := by field_simp; ring
  _ < Real.arctan (Real.sinh (Real.pi * (1 - 2 * y / 2 ^ z))) * (180 / Real.pi) :=
      mul_lt_mul_of_pos_right h h180
  _ = Real.arctan (Real.sinh (Real.pi * (1 - 2 * y / 2 ^ z))) * 180 / Real.pi := by ring

/-- Upper-left corner latitudes strictly decrease with the row index. -/
lemma ulLat_strictAnti {y1 y2 : ℤ} (z : ℕ) (h : y1 < y2) : ulLat y2 z < ulLat y1 z := by
  have hp : (0 : ℝ) < Real.pi := Real.pi_pos
  have hz : (0 : ℝ) < 2 ^ z := by positivity
  have hc : (y1 : ℝ) < (y2 : ℝ) := by exact_mod_cast h
  have ht : Real.pi * (1 - 2 * y2 / 2 ^ z) < Real.pi * (1 - 2 * y1 / 2 ^ z) := by
    apply mul_lt_mul_of_pos_left _ hp
    have := div_lt_div_of_pos_right (by linarith : 2 * (y1 : ℝ) < 2 * y2) hz
    linarith
  have hsh := Real.sinh_lt_sinh.2 ht
  have hat := Real.arctan_strictMono hsh
  unfold ulLat
  have h180 : (0 : ℝ) < 180 / Real.pi := by positivity
  calc Real.arctan (Real.sinh (Real.pi * (1 - 2 * y2 / 2 ^ z))) * 180 / Real.pi
      = Real.arctan (Real.sinh (Real.pi * (1 - 2 * y2 / 2 ^ z))) * (180 / Real.pi) := by ring
  _ < Real.arctan (Real.sinh (Real.pi * (1 - 2 * y1 / 2 ^ z))) * (180 / Real.pi) :=
      mul_lt_mul_of_pos_right hat h180
  _ = Real.arctan (Real.sinh (Real.pi * (1 - 2 * y1 / 2 ^ z))) * 180 / Real.pi := by ring

/-- Reverse reading of antitonicity: smaller ynorm forces a more northern
latitude. -/
lemma le_of_ynorm_le {a u : ℝ} (hu : -90 < u) (ha : a < 90) (h : ynorm u ≤ ynorm a) :
    a ≤ u := by
  by_contra hc
  push_neg at hc
  exact absurd (ynorm_strictAnti hu ha hc) (by linarith)

/-- Reverse reading of antitonicity: larger ynorm forces a more southern
latitude. -/
lemma lt_of_ynorm_lt {a v : ℝ} (ha : -90 < a) (hv : v < 90) (h : ynorm a < ynorm v) :
    v < a := by
  by_contra hc
  push_neg at hc
  exact absurd (ynorm_anti ha hv hc) (by linarith)

/-- A latitude strictly inside the projection range lies inside the latitude
span of its own tile row, so the linear fraction of lat_lon_to_pixel lies in
[0, 1) and the global y pixel lies inside the 256-pixel band of the row. -/
lemma gpixY_bounds {lat : ℝ} (z : ℕ) (hl : -90 < lat) (hr : lat < 90)
    (h0 : 0 ≤ ynorm lat) (h1 : ynorm lat < 1) :
    (tileY lat z : ℝ) * 256 ≤ gpixY z lat ∧ gpixY z lat < (tileY lat z : ℝ) * 256 + 256 := by
  have hz : (0 : ℝ) < 2 ^ z := by positivity
  have hmf : tileY lat z = ⌊ynorm lat * 2 ^ z⌋ := tileY_eq_floor z h0 h1
  have hfl : ((tileY lat z : ℤ) : ℝ) ≤ ynorm lat * 2 ^ z := by
    rw [hmf]; exact Int.floor_le _
  have hfu : ynorm lat * 2 ^ z < (tileY lat z : ℝ) + 1 := by
    rw [hmf]; exact Int.lt_floor_add_one _
  have hlatle : lat ≤ ulLat (tileY lat z) z := by
    apply le_of_ynorm_le (neg_90_lt_ulLat _ z) hr
    rw [ynorm_ulLat, div_le_iff₀ hz]
    exact hfl
  have hlatgt : ulLat (tileY lat z + 1) z < lat := by
    apply lt_of_ynorm_lt hl (ulLat_lt_90 _ z)
    rw [ynorm_ulLat, lt_div_iff₀ hz]
    push_cast
    linarith
  have hD : 0 < ulLat (tileY lat z) z - ulLat (tileY lat z + 1) z := by
    have := ulLat_strictAnti z (lt_add_one (tileY lat z))
    linarith
  have hfr0 : 0 ≤ (ulLat (tileY lat z) z - lat) /
      (ulLat (tileY lat z) z - ulLat (tileY lat z + 1) z) :=
    div_nonneg (by linarith) hD.le
  have hfr1 : (ulLat (tileY lat z) z - lat) /
      (ulLat (tileY lat z) z - ulLat (tileY lat z + 1) z) < 1 :=
    (div_lt_one hD).2 (by linarith)
  unfold gpixY
  constructor
  · nlinarith
  · nlinarith

/-- The global y pixel decreases weakly as the latitude increases. -/
lemma gpixY_anti {a b : ℝ} (z : ℕ) (ha : -90 < a) (ha2 : a < 90) (hb : -90 < b)
    (hb2 : b < 90) (h0a : 0 ≤ ynorm a) (h1a : ynorm a < 1) (h0b : 0 ≤ ynorm b)
    (h1b : ynorm b < 1) (hab : a ≤ b) : gpixY z b ≤ gpixY z a := by
  have hmono : tileY b z ≤ tileY a z := tileY_mono_ynorm z (ynorm_anti ha hb2 hab)
  rcases lt_or_eq_of_le hmono with hlt | heq
  · have Ba := gpixY_bounds z ha ha2 h0a h1a
    have Bb := gpixY_bounds z hb hb2 h0b h1b
    have hstep : (tileY b z : ℝ) + 1 ≤ (tileY a z : ℝ) := by exact_mod_cast hlt
    nlinarith [Ba.1, Bb.2]
  · unfold gpixY
    rw [heq]
    have hD : 0 < ulLat (tileY a z) z - ulLat (tileY a z + 1) z := by
      have := ulLat_strictAnti z (lt_add_one (tileY a z))
      linarith
    have hnum : ulLat (tileY a z) z - b ≤ ulLat (tileY a z) z - a := by linarith
    have hfr : (ulLat (tileY a z) z - b) /
        (ulLat (tileY a z) z - ulLat (tileY a z + 1) z)
        ≤ (ulLat (tileY a z) z - a) /
          (ulLat (tileY a z) z - ulLat (tileY a z + 1) z) := by
      rw [div_le_div_iff₀ hD hD]
      nlinarith
    nlinarith

/-- The first component of lat_lon_to_pixel: the tile index cancels against
the interpolation, leaving the floor of the global pixel column shifted by the
canvas x offset. -/
lemma pixel_x_eq (z : ℕ) (xoff yoff : ℤ) (lat lon : ℝ)
    (h : (xoff : ℝ) ≤ xnorm lon * 2 ^ z) :
    (lat_lon_to_pixel z xoff yoff lat lon).1 = ⌊xnorm lon * 2 ^ z * 256⌋ - 256 * xoff := by
  have hz : (0 : ℝ) < 2 ^ z := by positivity
  have hfrac : (lon - ulLng (tileX lon z) z) /
      (ulLng (tileX lon z + 1) z - ulLng (tileX lon z) z)
      = xnorm lon * 2 ^ z - tileX lon z := by
    unfold ulLng xnorm
    have hden : ((tileX lon z : ℝ) + 1) / 2 ^ z * 360 - 180 -
        ((tileX lon z : ℝ) / 2 ^ z * 360 - 180) = 360 / 2 ^ z := by
      field_simp
      ring
    push_cast
    rw [hden]
    rw [div_eq_iff (ne_of_gt (by positivity : (0 : ℝ) < 360 / 2 ^ z))]
    field_simp
    ring
  show pyInt (((tileX lon z : ℝ) - xoff) * 256 +
      (lon - ulLng (tileX lon z) z) /
        (ulLng (tileX lon z + 1) z - ulLng (tileX lon z) z) * 256)
      = ⌊xnorm lon * 2 ^ z * 256⌋ - 256 * xoff
  rw [hfrac]
  have harg : ((tileX lon z : ℝ) - xoff) * 256 + (xnorm lon * 2 ^ z - tileX lon z) * 256
      = xnorm lon * 2 ^ z * 256 - ((256 * xoff : ℤ) : ℝ) := by
    push_cast
    ring
  rw [harg, pyInt_eq_floor (by push_cast; nlinarith), Int.floor_sub_int]

/-- The second component of lat_lon_to_pixel: the floor of the global y pixel
shifted by the canvas y offset. -/
lemma pixel_y_eq (z : ℕ) (xoff yoff : ℤ) (lat lon : ℝ)
    (h : (yoff : ℝ) * 256 ≤ gpixY z lat) :
    (lat_lon_to_pixel z xoff yoff lat lon).2 = ⌊gpixY z lat⌋ - 256 * yoff := by
  show pyInt (((tileY lat z : ℝ) - yoff) * 256 +
      (ulLat (tileY lat z) z - lat) /
        (ulLat (tileY lat z) z - ulLat (tileY lat z + 1) z) * 256)
      = ⌊gpixY z lat⌋ - 256 * yoff
  have harg : ((tileY lat z : ℝ) - yoff) * 256 +
      (ulLat (tileY lat z) z - lat) /
        (ulLat (tileY lat z) z - ulLat (tileY lat z + 1) z) * 256
      = gpixY z lat - ((256 * yoff : ℤ) : ℝ) := by
    unfold gpixY
    push_cast
    ring
  rw [harg, pyInt_eq_floor (by push_cast; linarith), Int.floor_sub_int]

/-- For a west-to-east box the enumerated tile list is one clamped segment. -/
lemma scriptTiles_eq {b : Box} (z : ℕ) (hwe : b.lonMin ≤ b.lonMax) :
    scriptTiles b z =
      tileRect (tileF (max (-180) b.lonMin) (min 85.051129 b.latMax) z)
        (tileF (min 180 b.lonMax) (max (-85.051129) b.latMin) z) := by
  unfold scriptTiles tilesFn
  rw [if_neg (not_lt.2 hwe)]
  rfl

/-- For a well-formed box the tile list is the rectangle between the tile of
the northwest corner and the tile of the southeast corner. -/
lemma scriptTiles_nice {b : Box} (z : ℕ) (hn : NiceBox b) :
    scriptTiles b z =
      tileRect (tileF b.lonMin b.latMax z) (tileF b.lonMax b.latMin z) := by
  obtain ⟨h1, h2, h3, h4, h5, h6⟩ := hn
  rw [scriptTiles_eq z h2, max_eq_right h1, min_eq_right h3, min_eq_right h6,
    max_eq_right h4]

/-- The x extent of a well-formed box tile list is ordered. -/
lemma nice_x_le {b : Box} (z : ℕ) (hn : NiceBox b) :
    tileX b.lonMin z ≤ tileX b.lonMax z := tileX_mono z hn.2.1

/-- The y extent of a well-formed box tile list is ordered (north row first). -/
lemma nice_y_le {b : Box} (z : ℕ) (hn : NiceBox b) :
    tileY b.latMax z ≤ tileY b.latMin z := by
  obtain ⟨h1, h2, h3, h4, h5, h6⟩ := hn
  apply tileY_mono_ynorm z
  apply ynorm_anti (by norm_num at h4 ⊢; linarith) (by norm_num at h6 ⊢; linarith) h5

/-- The four canvas extremes of a well-formed box: the offsets are the
northwest corner tile indices and the maxima are the southeast corner ones. -/
lemma offsets_nice {b : Box} (z : ℕ) (hn : NiceBox b) :
    x_offset b z = tileX b.lonMin z ∧ y_offset b z = tileY b.latMax z ∧
      listMaxD ((scriptTiles b z).map Prod.fst) = tileX b.lonMax z ∧
      listMaxD ((scriptTiles b z).map Prod.snd) = tileY b.latMin z := by
  have hx := nice_x_le z hn
  have hy := nice_y_le z hn
  have hts := scriptTiles_nice z hn
  refine ⟨?_, ?_, ?_, ?_⟩
  · rw [x_offset, hts]
    exact minFst_tileRect hx hy
  · rw [y_offset, hts]
    exact minSnd_tileRect hx hy
  · rw [hts]
    exact maxFst_tileRect hx hy
  · rw [hts]
    exact maxSnd_tileRect hx hy

lemma osmStep_canvas {B I : Type} (E : Env B I) (xo yo : ℤ) (st : LoopState B I)
    (t : ℤ × ℤ) :
    (osmStep E xo yo st t).canvas
      = st.canvas ++ (match tilePaste E.decode (st.cache t) (E.http t) with
        | some img => [(pastePos xo yo t, img)]
        | none => []) := by
  rcases hcb : st.cache t with _ | b
  · rcases hh : E.http t with b2 | c | _
    · rcases hd : E.decode b2 with _ | img
      · simp [osmStep, osmDownload, tilePaste, dlPaste, hcb, hh, hd]
      · simp [osmStep, osmDownload, tilePaste, dlPaste, hcb, hh, hd]
    · simp [osmStep, osmDownload, tilePaste, dlPaste, hcb, hh]
    · simp [osmStep, osmDownload, tilePaste, dlPaste, hcb, hh]
  · rcases hd : E.decode b with _ | img
    · rcases hh : E.http t with b2 | c | _
      · rcases hd2 : E.decode b2 with _ | img2
        · simp [osmStep, osmDownload, tilePaste, dlPaste, hcb, hh, hd, hd2]
        · simp [osmStep, osmDownload, tilePaste, dlPaste, hcb, hh, hd, hd2]
      · simp [osmStep, osmDownload, tilePaste, dlPaste, hcb, hh, hd]
      · simp [osmStep, osmDownload, tilePaste, dlPaste, hcb, hh, hd]
    · simp [osmStep, tilePaste, hcb, hd]

lemma osmStep_cache_self {B I : Type} (E : Env B I) (xo yo : ℤ) (st : LoopState B I)
    (t : ℤ × ℤ) :
    (osmStep E xo yo st t).cache t = tileCacheNext E.decode (st.cache t) (E.http t) := by
  rcases hcb : st.cache t with _ | b
  · rcases hh : E.http t with b2 | c | _
    · rcases hd : E.decode b2 with _ | img
      · simp [osmStep, osmDownload, tileCacheNext, dlWrite, hcb, hh, hd]
      · simp [osmStep, osmDownload, tileCacheNext, dlWrite, hcb, hh, hd]
    · simp [osmStep, osmDownload, tileCacheNext, dlWrite, hcb, hh]
    · simp [osmStep, osmDownload, tileCacheNext, dlWrite, hcb, hh]
  · rcases hd : E.decode b with _ | img
    · rcases hh : E.http t with b2 | c | _
      · rcases hd2 : E.decode b2 with _ | img2
        · simp [osmStep, osmDownload, tileCacheNext, dlWrite, hcb, hh, hd, hd2]
        · simp [osmStep, osmDownload, tileCacheNext, dlWrite, hcb, hh, hd, hd2]
      · simp [osmStep, osmDownload, tileCacheNext, dlWrite, hcb, hh, hd]
      · simp [osmStep, osmDownload, tileCacheNext, dlWrite, hcb, hh, hd]
    · simp [osmStep, tileCacheNext, hcb, hd]

lemma osmStep_cache_frame {B I : Type} (E : Env B I) (xo yo : ℤ) (st : LoopState B I)
    (t k : ℤ × ℤ) (hk : k ≠ t) :
    (osmStep E xo yo st t).cache k = st.cache k := by
  rcases hcb : st.cache t with _ | b
  · rcases hh : E.http t with b2 | c | _
    · rcases hd : E.decode b2 with _ | img
      · simp [osmStep, osmDownload, hcb, hh, hd, hk]
      · simp [osmStep, osmDownload, hcb, hh, hd, hk]
    · simp [osmStep, osmDownload, hcb, hh]
    · simp [osmStep, osmDownload, hcb, hh]
  · rcases hd : E.decode b with _ | img
    · rcases hh : E.http t with b2 | c | _
      · rcases hd2 : E.decode b2 with _ | img2
        · simp [osmStep, osmDownload, hcb, hh, hd, hd2, hk]
        · simp [osmStep, osmDownload, hcb, hh, hd, hd2, hk]
      · simp [osmStep, osmDownload, hcb, hh, hd]
      · simp [osmStep, osmDownload, hcb, hh, hd]
    · simp [osmStep, hcb, hd]

lemma osmStep_counts {B I : Type} (E : Env B I) (xo yo : ℤ) (st : LoopState B I)
    (t : ℤ × ℤ) :
    (osmStep E xo yo st t).cached_tiles + (osmStep E xo yo st t).successful_downloads
        + (osmStep E xo yo st t).failed_downloads
      = st.cached_tiles + st.successful_downloads + st.failed_downloads + 1 := by
  rcases hcb : st.cache t with _ | b
  · rcases hh : E.http t with b2 | c | _
    · rcases hd : E.decode b2 with _ | img
      · simp [osmStep, osmDownload, hcb, hh, hd]; omega
      · simp [osmStep, osmDownload, hcb, hh, hd]; omega
    · simp [osmStep, osmDownload, hcb, hh]; omega
    · simp [osmStep, osmDownload, hcb, hh]; omega
  · rcases hd : E.decode b with _ | img
    · rcases hh : E.http t with b2 | c | _
      · rcases hd2 : E.decode b2 with _ | img2
        · simp [osmStep, osmDownload, hcb, hh, hd, hd2]; omega
        · simp [osmStep, osmDownload, hcb, hh, hd, hd2]; omega
      · simp [osmStep, osmDownload, hcb, hh, hd]; omega
      · simp [osmStep, osmDownload, hcb, hh, hd]; omega
    · simp [osmStep, hcb, hd]; omega

lemma osmStep_failed {B I : Type} (E : Env B I) (xo yo : ℤ) (st : LoopState B I)
    (t : ℤ × ℤ) :
    (osmStep E xo yo st t).failed_downloads
      = st.failed_downloads + (match tilePaste E.decode (st.cache t) (E.http t) with
        | some _ => 0
        | none => 1) := by
  rcases hcb : st.cache t with _ | b
  · rcases hh : E.http t with b2 | c | _
    · rcases hd : E.decode b2 with _ | img
      · simp [osmStep, osmDownload, tilePaste, dlPaste, hcb, hh, hd]
      · simp [osmStep, osmDownload, tilePaste, dlPaste, hcb, hh, hd]
    · simp [osmStep, osmDownload, tilePaste, dlPaste, hcb, hh]
    · simp [osmStep, osmDownload, tilePaste, dlPaste, hcb, hh]
  · rcases hd : E.decode b with _ | img
    · rcases hh : E.http t with b2 | c | _
      · rcases hd2 : E.decode b2 with _ | img2
        · simp [osmStep, osmDownload, tilePaste, dlPaste, hcb, hh, hd, hd2]
        · simp [osmStep, osmDownload, tilePaste, dlPaste, hcb, hh, hd, hd2]
      · simp [osmStep, osmDownload, tilePaste, dlPaste, hcb, hh, hd]
      · simp [osmStep, osmDownload, tilePaste, dlPaste, hcb, hh, hd]
    · simp [osmStep, tilePaste, hcb, hd]

lemma osmStep_requests_le {B I : Type} (E : Env B I) (xo yo : ℤ) (st : LoopState B I)
    (t : ℤ × ℤ) :
    (osmStep E xo yo st t).requests ≤ st.requests + 1 := by
  rcases hcb : st.cache t with _ | b
  · rcases hh : E.http t with b2 | c | _
    · rcases hd : E.decode b2 with _ | img
      · simp [osmStep, osmDownload, hcb, hh, hd]
      · simp [osmStep, osmDownload, hcb, hh, hd]
    · simp [osmStep, osmDownload, hcb, hh]
    · simp [osmStep, osmDownload, hcb, hh]
  · rcases hd : E.decode b with _ | img
    · rcases hh : E.http t with b2 | c | _
      · rcases hd2 : E.decode b2 with _ | img2
        · simp [osmStep, osmDownload, hcb, hh, hd, hd2]
        · simp [osmStep, osmDownload, hcb, hh, hd, hd2]
      · simp [osmStep, osmDownload, hcb, hh, hd]
      · simp [osmStep, osmDownload, hcb, hh, hd]
    · simp [osmStep, hcb, hd]

lemma osmStep_sleeps_requests {B I : Type} (E : Env B I) (xo yo : ℤ) (st : LoopState B I)
    (t : ℤ × ℤ) :
    (osmStep E xo yo st t).sleeps + st.requests
      = (osmStep E xo yo st t).requests + st.sleeps := by
  rcases hcb : st.cache t with _ | b
  · rcases hh : E.http t with b2 | c | _
    · rcases hd : E.decode b2 with _ | img
      · simp [osmStep, osmDownload, hcb, hh, hd]; omega
      · simp [osmStep, osmDownload, hcb, hh, hd]; omega
    · simp [osmStep, osmDownload, hcb, hh]; omega
    · simp [osmStep, osmDownload, hcb, hh]; omega
  · rcases hd : E.decode b with _ | img
    · rcases hh : E.http t with b2 | c | _
      · rcases hd2 : E.decode b2 with _ | img2
        · simp [osmStep, osmDownload, hcb, hh, hd, hd2]; omega
        · simp [osmStep, osmDownload, hcb, hh, hd, hd2]; omega
      · simp [osmStep, osmDownload, hcb, hh, hd]; omega
      · simp [osmStep, osmDownload, hcb, hh, hd]; omega
    · simp [osmStep, hcb, hd]; omega

lemma dlStep_canvas {B I : Type} (E : Env B I) (xo yo : ℤ) (st : LoopState B I)
    (t : ℤ × ℤ) :
    (dlStep E xo yo st t).canvas
      = st.canvas ++ (match dlPaste E.decode (E.http t) with
        | some img => [(pastePos xo yo t, img)]
        | none => []) := by
  rcases hh : E.http t with b2 | c | _
  · rcases hd : E.decode b2 with _ | img
    · simp [dlStep, dlPaste, hh, hd]
    · simp [dlStep, dlPaste, hh, hd]
  · simp [dlStep, dlPaste, hh]
  · simp [dlStep, dlPaste, hh]

lemma dlStep_requests {B I : Type} (E : Env B I) (xo yo : ℤ) (st : LoopState B I)
    (t : ℤ × ℤ) :
    (dlStep E xo yo st t).requests = st.requests + 1 := by
  rcases hh : E.http t with b2 | c | _
  · rcases hd : E.decode b2 with _ | img
    · simp [dlStep, hh, hd]
    · simp [dlStep, hh, hd]
  · simp [dlStep, hh]
  · simp [dlStep, hh]

lemma dlStep_sleeps {B I : Type} (E : Env B I) (xo yo : ℤ) (st : LoopState B I)
    (t : ℤ × ℤ) :
    (dlStep E xo yo st t).sleeps = st.sleeps := by
  rcases hh : E.http t with b2 | c | _
  · rcases hd : E.decode b2 with _ | img
    · simp [dlStep, hh, hd]
    · simp [dlStep, hh, hd]
  · simp [dlStep, hh]
  · simp [dlStep, hh]

lemma osmRun_cons {B I : Type} (E : Env B I) (xo yo : ℤ) (t : ℤ × ℤ) (r : List (ℤ × ℤ))
    (st : LoopState B I) :
    osmRun E xo yo (t :: r) st = osmRun E xo yo r (osmStep E xo yo st t) := rfl

lemma dlRun_cons {B I : Type} (E : Env B I) (xo yo : ℤ) (t : ℤ × ℤ) (r : List (ℤ × ℤ))
    (st : LoopState B I) :
    dlRun E xo yo (t :: r) st = dlRun E xo yo r (dlStep E xo yo st t) := rfl

/-- Every iteration of the loop bumps exactly one of the three counters, so a
whole run accounts for every tile exactly once: no exception escapes and stops
the loop early. -/
lemma osmRun_counts {B I : Type} (E : Env B I) (xo yo : ℤ) :
    ∀ (tiles : List (ℤ × ℤ)) (st : LoopState B I),
      (osmRun E xo yo tiles st).cached_tiles
          + (osmRun E xo yo tiles st).successful_downloads
          + (osmRun E xo yo tiles st).failed_downloads
        = st.cached_tiles + st.successful_downloads + st.failed_downloads + tiles.length := by
  intro tiles
  induction tiles with
  | nil => intro st; simp [osmRun]
  | cons t r ih =>
    intro st
    have h := osmStep_counts E xo yo st t
    have h2 := ih (osmStep E xo yo st t)
    rw [osmRun_cons]
    rw [List.length_cons]
    omega

/-- A run makes at most one HTTP request per enumerated tile. -/
lemma osmRun_requests_le {B I : Type} (E : Env B I) (xo yo : ℤ) :
    ∀ (tiles : List (ℤ × ℤ)) (st : LoopState B I),
      (osmRun E xo yo tiles st).requests ≤ st.requests + tiles.length := by
  intro tiles
  induction tiles with
  | nil => intro st; simp [osmRun]
  | cons t r ih =>
    intro st
    have h := osmStep_requests_le E xo yo st t
    have h2 := ih (osmStep E xo yo st t)
    rw [osmRun_cons, List.length_cons]
    omega

/-- Sleeps and requests advance in lockstep through a whole osm run. -/
lemma osmRun_sleeps_requests {B I : Type} (E : Env B I) (xo yo : ℤ) :
    ∀ (tiles : List (ℤ × ℤ)) (st : LoopState B I),
      (osmRun E xo yo tiles st).sleeps + st.requests
        = (osmRun E xo yo tiles st).requests + st.sleeps := by
  intro tiles
  induction tiles with
  | nil => intro st; simp [osmRun]; omega
  | cons t r ih =>
    intro st
    have h := osmStep_sleeps_requests E xo yo st t
    have h2 := ih (osmStep E xo yo st t)
    rw [osmRun_cons]
    omega

/-- downloader.py never sleeps. -/
lemma dlRun_sleeps {B I : Type} (E : Env B I) (xo yo : ℤ) :
    ∀ (tiles : List (ℤ × ℤ)) (st : LoopState B I),
      (dlRun E xo yo tiles st).sleeps = st.sleeps := by
  intro tiles
  induction tiles with
  | nil => intro st; simp [dlRun]
  | cons t r ih =>
    intro st
    rw [dlRun_cons, ih, dlStep_sleeps]

/-- downloader.py performs exactly one request per tile. -/
lemma dlRun_requests {B I : Type} (E : Env B I) (xo yo : ℤ) :
    ∀ (tiles : List (ℤ × ℤ)) (st : LoopState B I),
      (dlRun E xo yo tiles st).requests = st.requests + tiles.length := by
  intro tiles
  induction tiles with
  | nil => intro st; simp [dlRun]
  | cons t r ih =>
    intro st
    rw [dlRun_cons, ih, dlStep_requests, List.length_cons]
    omega

/-- Every canvas entry of an osm run is inherited from the initial state or
pasted at the canonical position of one of the processed tiles. -/
lemma osmRun_canvas_mem {B I : Type} (E : Env B I) (xo yo : ℤ) :
    ∀ (tiles : List (ℤ × ℤ)) (st : LoopState B I) (e : (ℤ × ℤ) × I),
      e ∈ (osmRun E xo yo tiles st).canvas →
        e ∈ st.canvas ∨ ∃ t ∈ tiles, e.1 = pastePos xo yo t := by
  intro tiles
  induction tiles with
  | nil => intro st e he; exact Or.inl he
  | cons t r ih =>
    intro st e he
    rw [osmRun_cons] at he
    rcases ih (osmStep E xo yo st t) e he with h | h
    · rw [osmStep_canvas] at h
      rcases List.mem_append.1 h with h' | h'
      · exact Or.inl h'
      · right
        refine ⟨t, List.mem_cons_self t r, ?_⟩
        revert h'
        rcases tilePaste E.decode (st.cache t) (E.http t) with _ | img
        · intro h'; cases h'
        · intro h'
          rcases List.mem_singleton.1 h' with rfl
          rfl
    · rcases h with ⟨t2, ht2, he2⟩
      exact Or.inr ⟨t2, List.mem_cons_of_mem t ht2, he2⟩

/-- Same statement for downloader.py. -/
lemma dlRun_canvas_mem {B I : Type} (E : Env B I) (xo yo : ℤ) :
    ∀ (tiles : List (ℤ × ℤ)) (st : LoopState B I) (e : (ℤ × ℤ) × I),
      e ∈ (dlRun E xo yo tiles st).canvas →
        e ∈ st.canvas ∨ ∃ t ∈ tiles, e.1 = pastePos xo yo t := by
  intro tiles
  induction tiles with
  | nil => intro st e he; exact Or.inl he
  | cons t r ih =>
    intro st e he
    rw [dlRun_cons] at he
    rcases ih (dlStep E xo yo st t) e he with h | h
    · rw [dlStep_canvas] at h
      rcases List.mem_append.1 h with h' | h'
      · exact Or.inl h'
      · right
        refine ⟨t, List.mem_cons_self t r, ?_⟩
        revert h'
        rcases dlPaste E.decode (E.http t) with _ | img
        · intro h'; cases h'
        · intro h'
          rcases List.mem_singleton.1 h' with rfl
          rfl
    · rcases h with ⟨t2, ht2, he2⟩
      exact Or.inr ⟨t2, List.mem_cons_of_mem t ht2, he2⟩

/-- Tiles never processed leave their cache entry untouched. -/
lemma osmRun_cache_frame {B I : Type} (E : Env B I) (xo yo : ℤ) :
    ∀ (tiles : List (ℤ × ℤ)) (st : LoopState B I) (t : ℤ × ℤ), t ∉ tiles →
      (osmRun E xo yo tiles st).cache t = st.cache t := by
  intro tiles
  induction tiles with
  | nil => intro st t _; rfl
  | cons a r ih =>
    intro st t ht
    have hne : t ≠ a := fun he => ht (by rw [he]; exact List.mem_cons_self a r)
    rw [osmRun_cons, ih _ _ (fun h => ht (List.mem_cons_of_mem a h)),
      osmStep_cache_frame _ _ _ _ _ _ hne]

/-- After a run from an empty cache entry, the entry of an enumerated tile
holds exactly the raw HTTP body on a 200 response and is still empty
otherwise. -/
lemma osmRun_cache_final {B I : Type} (E : Env B I) (xo yo : ℤ) :
    ∀ (tiles : List (ℤ × ℤ)), tiles.Nodup →
      ∀ (st : LoopState B I) (t : ℤ × ℤ), t ∈ tiles → st.cache t = none →
        (osmRun E xo yo tiles st).cache t = dlWrite none (E.http t) := by
  intro tiles
  induction tiles with
  | nil => intro _ st t ht; cases ht
  | cons a r ih =>
    intro hnd st t ht hc
    have hna : a ∉ r := (List.nodup_cons.1 hnd).1
    have hndr : r.Nodup := (List.nodup_cons.1 hnd).2
    rw [osmRun_cons]
    rcases List.mem_cons.1 ht with rfl | htr
    · rw [osmRun_cache_frame E xo yo r _ t hna, osmStep_cache_self, hc]
      rfl
    · have hne : t ≠ a := fun he => hna (he ▸ htr)
      exact ih hndr _ t htr (by rw [osmStep_cache_frame _ _ _ _ _ _ hne]; exact hc)

/-- A cache entry holding exactly the raw response body produces the same
paste as the download path itself. -/
lemma tilePaste_dlWrite {B I : Type} (decode : B → Option I) (h : HttpResult B) :
    tilePaste decode (dlWrite none h) h = dlPaste decode h := by
  rcases h with b | c | _
  · rcases hd : decode b with _ | i <;> simp [tilePaste, dlWrite, dlPaste, hd]
  · simp [tilePaste, dlWrite, dlPaste]
  · simp [tilePaste, dlWrite, dlPaste]

/-- Reprocessing a tile whose cache entry is the raw response body leaves the
entry unchanged. -/
lemma tileCacheNext_dlWrite {B I : Type} (decode : B → Option I) (h : HttpResult B) :
    tileCacheNext decode (dlWrite none h) h = dlWrite none h := by
  rcases h with b | c | _
  · rcases hd : decode b with _ | i <;> simp [tileCacheNext, dlWrite, hd]
  · simp [tileCacheNext, dlWrite]
  · simp [tileCacheNext, dlWrite]

/-- Bisimulation for the cached re-run: starting from a cache that holds the
raw response body for every tile to process, the run paints exactly the same
canvas as a run from empty cache entries. -/
lemma osmRun_bisim {B I : Type} (E : Env B I) (xo yo : ℤ) :
    ∀ (tiles : List (ℤ × ℤ)), tiles.Nodup →
      ∀ (sF sC : LoopState B I), sC.canvas = sF.canvas →
        (∀ t ∈ tiles, sF.cache t = none) →
        (∀ t ∈ tiles, sC.cache t = dlWrite none (E.http t)) →
        (osmRun E xo yo tiles sC).canvas = (osmRun E xo yo tiles sF).canvas := by
  intro tiles
  induction tiles with
  | nil =>
    intro _ sF sC h _ _
    exact h
  | cons a r ih =>
    intro hnd sF sC hcv hF hC
    have hna : a ∉ r := (List.nodup_cons.1 hnd).1
    have hndr : r.Nodup := (List.nodup_cons.1 hnd).2
    rw [osmRun_cons, osmRun_cons]
    apply ih hndr
    · rw [osmStep_canvas, osmStep_canvas, hcv, hF a (List.mem_cons_self a r),
        hC a (List.mem_cons_self a r), tilePaste_dlWrite]
      rfl
    · intro t ht
      have hne : t ≠ a := fun he => hna (he ▸ ht)
      rw [osmStep_cache_frame _ _ _ _ _ _ hne]
      exact hF t (List.mem_cons_of_mem a ht)
    · intro t ht
      have hne : t ≠ a := fun he => hna (he ▸ ht)
      rw [osmStep_cache_frame _ _ _ _ _ _ hne]
      exact hC t (List.mem_cons_of_mem a ht)

/-- Exact canvas of an osm run over duplicate-free tiles: with duplicate-free
tiles only the iteration of a tile itself can touch its cache entry, so the
entry seen when a tile is processed is its initial one, and the final canvas
is the in-order list pairing each tile whose image decodes (from cache or
download) with the canonical paste position of that very tile. -/
lemma osmRun_canvas_eq {B I : Type} (E : Env B I) (xo yo : ℤ) :
    ∀ (tiles : List (ℤ × ℤ)), tiles.Nodup → ∀ (st : LoopState B I),
      (osmRun E xo yo tiles st).canvas
        = st.canvas ++ tiles.filterMap (fun t =>
            Option.map (fun img => (pastePos xo yo t, img))
              (tilePaste E.decode (st.cache t) (E.http t))) := by
  intro tiles
  induction tiles with
  | nil => intro _ st; simp [osmRun]
  | cons a r ih =>
    intro hnd st
    have hna : a ∉ r := (List.nodup_cons.1 hnd).1
    have hndr : r.Nodup := (List.nodup_cons.1 hnd).2
    rw [osmRun_cons, ih hndr, osmStep_canvas]
    have hcongr : r.filterMap (fun t =>
        Option.map (fun img => (pastePos xo yo t, img))
          (tilePaste E.decode ((osmStep E xo yo st a).cache t) (E.http t)))
        = r.filterMap (fun t =>
            Option.map (fun img => (pastePos xo yo t, img))
              (tilePaste E.decode (st.cache t) (E.http t))) := by
      apply List.filterMap_congr
      intro t ht
      rw [osmStep_cache_frame E xo yo st a t (fun he => hna (he ▸ ht))]
    rw [hcongr, List.filterMap_cons]
    rcases hp : tilePaste E.decode (st.cache a) (E.http a) with _ | img
    · simp
    · simp

/-- Exact canvas of a downloader.py run: the in-order list pairing each tile
whose response decodes with the canonical paste position of that tile. -/
lemma dlRun_canvas_eq {B I : Type} (E : Env B I) (xo yo : ℤ) :
    ∀ (tiles : List (ℤ × ℤ)) (st : LoopState B I),
      (dlRun E xo yo tiles st).canvas
        = st.canvas ++ tiles.filterMap (fun t =>
            Option.map (fun img => (pastePos xo yo t, img))
              (dlPaste E.decode (E.http t))) := by
  intro tiles
  induction tiles with
  | nil => intro st; simp [dlRun]
  | cons a r ih =>
    intro st
    rw [dlRun_cons, ih, dlStep_canvas, List.filterMap_cons]
    rcases hp : dlPaste E.decode (E.http a) with _ | img
    · simp
    · simp

/-- The normalized Mercator y at the equator. -/
lemma ynorm_zero : ynorm 0 = 1 / 2 := by
  unfold ynorm sinlat
  simp

/-- A longitude with normalized coordinate inside [0, 1) lies inside the span
of its own tile column. -/
lemma lon_mem_tile {lon : ℝ} (z : ℕ) (hx0 : 0 ≤ xnorm lon) (hx1 : xnorm lon < 1) :
    ulLng (tileX lon z) z ≤ lon ∧ lon < ulLng (tileX lon z + 1) z := by
  have hz : (0 : ℝ) < 2 ^ z := by positivity
  have hfl : ((tileX lon z : ℤ) : ℝ) ≤ xnorm lon * 2 ^ z := by
    rw [tileX_eq_floor z hx0 hx1]; exact Int.floor_le _
  have hfu : xnorm lon * 2 ^ z < (tileX lon z : ℝ) + 1 := by
    rw [tileX_eq_floor z hx0 hx1]; exact Int.lt_floor_add_one _
  have hlon : lon = 360 * xnorm lon - 180 := by unfold xnorm; ring
  constructor
  · have h1 : ((tileX lon z : ℤ) : ℝ) / 2 ^ z ≤ xnorm lon := by
      rw [div_le_iff₀ hz]; exact hfl
    unfold ulLng
    linarith [h1, hlon]
  · have h1 : xnorm lon < ((tileX lon z : ℝ) + 1) / 2 ^ z := by
      rw [lt_div_iff₀ hz]; exact hfu
    unfold ulLng
    push_cast
    linarith [h1, hlon]

/-- A latitude strictly inside the projection range is at or south of the
upper-left latitude of its own tile row. -/
lemma lat_le_row_ul {lat : ℝ} (z : ℕ) (hr : lat < 90) (h0 : 0 ≤ ynorm lat)
    (h1 : ynorm lat < 1) : lat ≤ ulLat (tileY lat z) z := by
  have hz : (0 : ℝ) < 2 ^ z := by positivity
  have hfl : ((tileY lat z : ℤ) : ℝ) ≤ ynorm lat * 2 ^ z := by
    rw [tileY_eq_floor z h0 h1]; exact Int.floor_le _
  apply le_of_ynorm_le (neg_90_lt_ulLat _ z) hr
  rw [ynorm_ulLat, div_le_iff₀ hz]
  exact hfl

/-- A latitude strictly inside the projection range is strictly north of the
upper-left latitude of the next tile row. -/
lemma row_ul_succ_lt_lat {lat : ℝ} (z : ℕ) (hl : -90 < lat) (h0 : 0 ≤ ynorm lat)
    (h1 : ynorm lat < 1) : ulLat (tileY lat z + 1) z < lat := by
  have hz : (0 : ℝ) < 2 ^ z := by positivity
  have hfu : ynorm lat * 2 ^ z < (tileY lat z : ℝ) + 1 := by
    rw [tileY_eq_floor z h0 h1]; exact Int.lt_floor_add_one _
  apply lt_of_ynorm_lt hl (ulLat_lt_90 _ z)
  rw [ynorm_ulLat, lt_div_iff₀ hz]
  push_cast
  linarith

/-- C1: For every latitude/longitude point, lat_lon_to_pixel locates the
containing tile with mercantile.tile at the configured zoom (the point indeed
lies inside the located tile for in-range inputs), computes the fractional
position within that tile by linear interpolation between the northwest
corner coordinates of the tile and those of the x+1 and y+1 neighbours, maps
the fraction to the canvas pixel ((tile.x - x_offset) * 256 + x_frac * 256,
(tile.y - y_offset) * 256 + y_frac * 256) truncated to integers; the script
takes left/bottom from (lat_min, lon_min) and right/top from
(lat_max, lon_max) and crops the canvas to exactly that rectangle. -/
theorem c1_pixel_mapping (z : ℕ) (xoff yoff : ℤ) (lat lon : ℝ) (b : Box)
    (hx0 : 0 ≤ xnorm lon) (hx1 : xnorm lon < 1) (hl : -90 < lat) (hr : lat < 90)
    (hy0 : 0 ≤ ynorm lat) (hy1 : ynorm lat < 1) :
    lat_lon_to_pixel z xoff yoff lat lon
        = (pyInt ((((tileF lon lat z).1 : ℝ) - xoff) * 256
              + (lon - ulLng (tileF lon lat z).1 z)
                / (ulLng ((tileF lon lat z).1 + 1) z - ulLng (tileF lon lat z).1 z) * 256),
           pyInt ((((tileF lon lat z).2 : ℝ) - yoff) * 256
              + (ulLat (tileF lon lat z).2 z - lat)
                / (ulLat (tileF lon lat z).2 z - ulLat ((tileF lon lat z).2 + 1) z) * 256)) ∧
    (ulLng (tileF lon lat z).1 z ≤ lon ∧ lon < ulLng ((tileF lon lat z).1 + 1) z ∧
      ulLat ((tileF lon lat z).2 + 1) z < lat ∧ lat ≤ ulLat (tileF lon lat z).2 z) ∧
    (leftPx b z, bottomPx b z) = scriptPixel b z b.latMin b.lonMin ∧
    (rightPx b z, topPx b z) = scriptPixel b z b.latMax b.lonMax ∧
    cropBox b z = (leftPx b z, topPx b z, rightPx b z, bottomPx b z) ∧
    croppedWidth b z = rightPx b z - leftPx b z ∧
    croppedHeight b z = bottomPx b z - topPx b z := by
  refine ⟨rfl, ⟨(lon_mem_tile z hx0 hx1).1, (lon_mem_tile z hx0 hx1).2,
    row_ul_succ_lt_lat z hl hy0 hy1, lat_le_row_ul z hr hy0 hy1⟩, rfl, rfl, rfl, rfl, rfl⟩

/-- Witness for C1 at the origin point. -/
theorem c1_pixel_mapping_witness :
    ulLng (tileF 0 0 3).1 3 ≤ 0 ∧ (0 : ℝ) < ulLng ((tileF 0 0 3).1 + 1) 3 :=
  ⟨((c1_pixel_mapping 3 0 0 0 0 ⟨0, 0, 0, 0⟩ (by norm_num [xnorm]) (by norm_num [xnorm])
      (by norm_num) (by norm_num) (by rw [ynorm_zero]; norm_num)
      (by rw [ynorm_zero]; norm_num)).2.1).1,
   ((c1_pixel_mapping 3 0 0 0 0 ⟨0, 0, 0, 0⟩ (by norm_num [xnorm]) (by norm_num [xnorm])
      (by norm_num) (by norm_num) (by rw [ynorm_zero]; norm_num)
      (by rw [ynorm_zero]; norm_num)).2.1).2.1⟩

/-- C3 counterexample: a decode failure on a cached tile file is caught and
logged but NOT counted in the failure counter, and the tile is not left
blank: the loop falls through to a fresh download, which here succeeds.  In
the run below the initial cache holds the undecodable body 0 for the only
tile, the server returns the decodable body 1, and the final state has zero
failed downloads and a pasted tile. -/
theorem c3_counterexample :
    envC3cache (0, 0) = some 0 ∧ envC3.decode 0 = none ∧
    (osmRun envC3 0 0 [((0 : ℤ), (0 : ℤ))] (startState envC3cache)).failed_downloads = 0 ∧
    (osmRun envC3 0 0 [((0 : ℤ), (0 : ℤ))] (startState envC3cache)).canvas
      = [(((0 : ℤ), (0 : ℤ)), 1)] :=
  ⟨rfl, rfl, rfl, rfl⟩

/-- C3 as amended: every download-path failure (non-200 response, network
exception, or decode failure of the downloaded body) is caught, counted in
failed_downloads and leaves the tile blank, while a decodable tile is pasted
and not counted as failed; a decode failure on a cached file falls through to
the download branch, whose outcome is what gets counted; no failure stops the
loop (every tile is accounted for exactly once by the three counters); and at
most one HTTP request is made per enumerated tile in the run. -/
theorem c3_failure_accounting {B I : Type} (E : Env B I) (xo yo : ℤ) :
    (∀ (tiles : List (ℤ × ℤ)) (cache0 : ℤ × ℤ → Option B),
      (osmRun E xo yo tiles (startState cache0)).cached_tiles
          + (osmRun E xo yo tiles (startState cache0)).successful_downloads
          + (osmRun E xo yo tiles (startState cache0)).failed_downloads = tiles.length) ∧
    (∀ (tiles : List (ℤ × ℤ)) (cache0 : ℤ × ℤ → Option B),
      (osmRun E xo yo tiles (startState cache0)).requests ≤ tiles.length) ∧
    (∀ (st : LoopState B I) (t : ℤ × ℤ),
      (osmStep E xo yo st t).failed_downloads
        = st.failed_downloads + (match tilePaste E.decode (st.cache t) (E.http t) with
            | some _ => 0
            | none => 1)) ∧
    (∀ (st : LoopState B I) (t : ℤ × ℤ),
      (osmStep E xo yo st t).canvas
        = st.canvas ++ (match tilePaste E.decode (st.cache t) (E.http t) with
            | some img => [(pastePos xo yo t, img)]
            | none => [])) := by
  refine ⟨?_, ?_, osmStep_failed E xo yo, osmStep_canvas E xo yo⟩
  · intro tiles cache0
    have h := osmRun_counts E xo yo tiles (startState cache0)
    simpa [startState] using h
  · intro tiles cache0
    have h := osmRun_requests_le E xo yo tiles (startState cache0)
    simpa [startState] using h

/-- C4: for a duplicate-free tile list, a run from empty cache entries leaves
in the cache exactly the raw HTTP response bytes of every 200 tile, and a
re-run starting from that cache paints a canvas identical to the fresh run:
the cache-hit path decodes the very bytes the network path decoded and pastes
them at the same position. -/
theorem c4_cache_roundtrip {B I : Type} (E : Env B I) (xo yo : ℤ)
    (tiles : List (ℤ × ℤ)) (hnd : tiles.Nodup) :
    (∀ t ∈ tiles, ∀ bts : B, E.http t = .success bts →
        (osmRun E xo yo tiles (startState fun _ => none)).cache t = some bts) ∧
    (osmRun E xo yo tiles
        (startState (osmRun E xo yo tiles (startState fun _ => none)).cache)).canvas
      = (osmRun E xo yo tiles (startState fun _ => none)).canvas := by
  have hfin : ∀ t ∈ tiles,
      (osmRun E xo yo tiles (startState (B := B) (I := I) fun _ => none)).cache t
        = dlWrite none (E.http t) := by
    intro t ht
    exact osmRun_cache_final E xo yo tiles hnd _ t ht rfl
  constructor
  · intro t ht bts hb
    rw [hfin t ht, hb]
    rfl
  · apply osmRun_bisim E xo yo tiles hnd
    · rfl
    · intro t _
      rfl
    · intro t ht
      exact hfin t ht

/-- Witness for C4 on a one-tile run. -/
theorem c4_cache_roundtrip_witness :
    (osmRun envW 0 0 [((0 : ℤ), (0 : ℤ))] (startState fun _ => none)).cache (0, 0)
        = some 5 ∧
    (osmRun envW 0 0 [((0 : ℤ), (0 : ℤ))]
        (startState
          (osmRun envW 0 0 [((0 : ℤ), (0 : ℤ))] (startState fun _ => none)).cache)).canvas
      = (osmRun envW 0 0 [((0 : ℤ), (0 : ℤ))] (startState fun _ => none)).canvas := by
  have h := c4_cache_roundtrip envW 0 0 [((0 : ℤ), (0 : ℤ))] (by decide)
  exact ⟨h.1 (0, 0) (by decide) 5 rfl, h.2⟩

/-- C6: when the chosen tile server requires an API key, an input that strips
to the empty string exits fatally before any tile enumeration or download (the
pipeline yields an error and no tile list), while a nonempty stripped key is
accepted and sent as the Authorization Bearer token; servers without a key
requirement skip the prompt. -/
theorem c6_api_key_gate (raw ua k : String) (b : Box) (z : ℕ) :
    resolveApiKey true raw
        = (if raw.trim = "" then Except.error () else Except.ok (some raw.trim)) ∧
    programTiles true raw b z
        = (if raw.trim = "" then Except.error () else Except.ok (scriptTiles b z)) ∧
    requestHeaders ua true (some k)
        = [("User-Agent", ua)]
          ++ (if k = "" then [] else [("Authorization", "Bearer " ++ k)]) ∧
    resolveApiKey false raw = Except.ok none := by
  refine ⟨?_, ?_, ?_, rfl⟩
  · by_cases h : raw.trim = "" <;> simp [resolveApiKey, h]
  · by_cases h : raw.trim = "" <;> simp [programTiles, resolveApiKey, h]
  · by_cases h : k = "" <;> simp [requestHeaders, h]

/-- C8 counterexample: downloader.py contains no sleep at all, so an HTTP
request is made with no preceding sleep: a one-tile run performs one request
and zero sleeps. -/
theorem c8_counterexample :
    (dlRun envW 0 0 [((0 : ℤ), (0 : ℤ))] (startState fun _ => none)).requests = 1 ∧
    (dlRun envW 0 0 [((0 : ℤ), (0 : ℤ))] (startState fun _ => none)).sleeps = 0 :=
  ⟨rfl, rfl⟩

/-- C8 as amended: in osm_downloader.py every HTTP request is preceded by its
own fixed sleep (sleeps and requests advance in lockstep, so a whole run has
exactly as many sleeps as requests) and the loop is a sequential left fold in
which every fetch completes before the next tile starts; downloader.py issues
one blocking request per tile with no sleep at all. -/
theorem c8_rate_limit_amended {B I : Type} (E : Env B I) (xo yo : ℤ)
    (tiles : List (ℤ × ℤ)) (cache0 : ℤ × ℤ → Option B) :
    (osmRun E xo yo tiles (startState cache0)).sleeps
        = (osmRun E xo yo tiles (startState cache0)).requests ∧
    (dlRun E xo yo tiles (startState cache0)).sleeps = 0 ∧
    (dlRun E xo yo tiles (startState cache0)).requests = tiles.length ∧
    osmRun E xo yo tiles (startState cache0)
        = tiles.foldl (osmStep E xo yo) (startState cache0) := by
  refine ⟨?_, ?_, ?_, rfl⟩
  · have h := osmRun_sleeps_requests E xo yo tiles (startState cache0)
    simpa [startState] using h
  · rw [dlRun_sleeps]
    rfl
  · rw [dlRun_requests]
    simp [startState]

/-- C9: every successfully decoded tile image, whether obtained from the
cache or from an HTTP response, is pasted into the canvas at exactly
((tile.x - x_offset) * 256, (tile.y - y_offset) * 256) of its own tile, by
direct placement with no blending: in both scripts the final canvas is
exactly the in-order list pairing each enumerated tile whose image decodes
with that image at the canonical position of that very tile - so every
decoded image is pasted, at the position of the tile it belongs to, and
nothing else ever reaches the canvas. -/
theorem c9_paste_positions {B I : Type} (E : Env B I) (xoff yoff : ℤ)
    (tiles : List (ℤ × ℤ)) (cache0 : ℤ × ℤ → Option B) (hnd : tiles.Nodup) :
    (osmRun E xoff yoff tiles (startState cache0)).canvas
        = tiles.filterMap (fun t =>
            Option.map (fun img => (pastePos xoff yoff t, img))
              (tilePaste E.decode (cache0 t) (E.http t))) ∧
    (dlRun E xoff yoff tiles (startState cache0)).canvas
        = tiles.filterMap (fun t =>
            Option.map (fun img => (pastePos xoff yoff t, img))
              (dlPaste E.decode (E.http t))) := by
  constructor
  · have h := osmRun_canvas_eq E xoff yoff tiles hnd (startState cache0)
    simpa [startState] using h
  · have h := dlRun_canvas_eq E xoff yoff tiles (startState cache0)
    simpa [startState] using h

/-- Witness for C9 on a concrete two-tile run. -/
theorem c9_paste_positions_witness :
    (osmRun envW 0 0 [((0 : ℤ), (0 : ℤ)), ((1 : ℤ), (2 : ℤ))]
        (startState fun _ => none)).canvas
      = [((0 : ℤ), (0 : ℤ)), ((1 : ℤ), (2 : ℤ))].filterMap (fun t =>
          Option.map (fun img => (pastePos 0 0 t, img))
            (tilePaste envW.decode none (envW.http t))) ∧
    (dlRun envW 0 0 [((0 : ℤ), (0 : ℤ)), ((1 : ℤ), (2 : ℤ))]
        (startState fun _ => none)).canvas
      = [((0 : ℤ), (0 : ℤ)), ((1 : ℤ), (2 : ℤ))].filterMap (fun t =>
          Option.map (fun img => (pastePos 0 0 t, img))
            (dlPaste envW.decode (envW.http t))) :=
  c9_paste_positions envW 0 0 [((0 : ℤ), (0 : ℤ)), ((1 : ℤ), (2 : ℤ))]
    (fun _ => none) (by decide)

/-- C10: on a 200 response whose body does not decode, the raw bytes are
written to the cache before the decode attempt, so the failure is counted,
the tile stays blank, and the undecodable bytes remain cached; on a later
pass over that tile the cached decode fails and the iteration falls through
to the download branch, issuing a fresh request. -/
theorem c10_bad_bytes_cached {B I : Type} (E : Env B I) (xo yo : ℤ)
    (st : LoopState B I) (t : ℤ × ℤ) (b : B)
    (hc : st.cache t = none) (hh : E.http t = .success b) (hd : E.decode b = none) :
    (osmStep E xo yo st t).cache t = some b ∧
    (osmStep E xo yo st t).failed_downloads = st.failed_downloads + 1 ∧
    (osmStep E xo yo st t).canvas = st.canvas ∧
    (∀ st2 : LoopState B I, st2.cache t = some b →
      osmStep E xo yo st2 t = osmDownload E xo yo st2 t ∧
      (osmStep E xo yo st2 t).requests = st2.requests + 1) := by
  refine ⟨?_, ?_, ?_, ?_⟩
  · rw [osmStep_cache_self, hc, hh]
    rfl
  · rw [osmStep_failed, hc, hh]
    simp [tilePaste, dlPaste, hd]
  · rw [osmStep_canvas, hc, hh]
    simp [tilePaste, dlPaste, hd]
  · intro st2 h2
    have hstep : osmStep E xo yo st2 t = osmDownload E xo yo st2 t := by
      simp [osmStep, h2, hd]
    refine ⟨hstep, ?_⟩
    rw [hstep]
    simp [osmDownload, hh, hd]

/-- Witness for C10: first pass caches the bad bytes and counts the failure,
second pass falls through to a fresh download. -/
theorem c10_bad_bytes_cached_witness :
    (osmStep envBad 0 0 (startState fun _ => none) ((0 : ℤ), (0 : ℤ))).cache (0, 0)
        = some 7 ∧
    (osmStep envBad 0 0 (startState fun _ => none) ((0 : ℤ), (0 : ℤ))).failed_downloads
        = 1 ∧
    osmStep envBad 0 0
        (osmStep envBad 0 0 (startState fun _ => none) ((0 : ℤ), (0 : ℤ)))
        ((0 : ℤ), (0 : ℤ))
      = osmDownload envBad 0 0
          (osmStep envBad 0 0 (startState fun _ => none) ((0 : ℤ), (0 : ℤ)))
          ((0 : ℤ), (0 : ℤ)) := by
  have h := c10_bad_bytes_cached envBad 0 0 (startState fun _ => none)
    ((0 : ℤ), (0 : ℤ)) 7 rfl rfl rfl
  refine ⟨h.1, ?_, (h.2.2.2 _ h.1).1⟩
  have h2 := h.2.1
  simpa [startState] using h2

/-- C2: for a nonempty enumerated tile set, the canvas is created with width
(max tile x - min tile x + 1) * 256 and height (max tile y - min tile y + 1)
* 256, and the placement origin (x_offset, y_offset) equals the minimum tile
x and y of the set: the minima and maxima here are genuine members of the set
bounding all its elements. -/
theorem c2_canvas_size_and_offsets (b : Box) (z : ℕ) (hn : NiceBox b) :
    scriptTiles b z ≠ [] ∧
    (x_offset b z ∈ (scriptTiles b z).map Prod.fst ∧
      ∀ q ∈ (scriptTiles b z).map Prod.fst, x_offset b z ≤ q) ∧
    (y_offset b z ∈ (scriptTiles b z).map Prod.snd ∧
      ∀ q ∈ (scriptTiles b z).map Prod.snd, y_offset b z ≤ q) ∧
    (∃ mx ∈ (scriptTiles b z).map Prod.fst,
      (∀ q ∈ (scriptTiles b z).map Prod.fst, q ≤ mx) ∧
        canvasWidth b z = (mx - x_offset b z + 1) * 256) ∧
    (∃ my ∈ (scriptTiles b z).map Prod.snd,
      (∀ q ∈ (scriptTiles b z).map Prod.snd, q ≤ my) ∧
        canvasHeight b z = (my - y_offset b z + 1) * 256) := by
  have hx := nice_x_le z hn
  have hy := nice_y_le z hn
  have hts := scriptTiles_nice z hn
  have hmem : tileF b.lonMin b.latMax z ∈ scriptTiles b z := by
    rw [hts]
    exact ul_mem_tileRect hx hy
  have hne : scriptTiles b z ≠ [] := by
    intro h
    rw [h] at hmem
    cases hmem
  have hneF : (scriptTiles b z).map Prod.fst ≠ [] := by
    intro h
    exact hne (List.map_eq_nil_iff.1 h)
  have hneS : (scriptTiles b z).map Prod.snd ≠ [] := by
    intro h
    exact hne (List.map_eq_nil_iff.1 h)
  refine ⟨hne, ⟨listMinD_mem hneF, fun q hq => listMinD_le hq⟩,
    ⟨listMinD_mem hneS, fun q hq => listMinD_le hq⟩,
    ⟨listMaxD ((scriptTiles b z).map Prod.fst), listMaxD_mem hneF,
      fun q hq => le_listMaxD hq, rfl⟩,
    ⟨listMaxD ((scriptTiles b z).map Prod.snd), listMaxD_mem hneS,
      fun q hq => le_listMaxD hq, rfl⟩⟩

/-- Witness for C2 on the degenerate box at the origin. -/
theorem c2_canvas_size_and_offsets_witness :
    scriptTiles ⟨0, 0, 0, 0⟩ 4 ≠ [] ∧
    x_offset ⟨0, 0, 0, 0⟩ 4 ∈ (scriptTiles ⟨0, 0, 0, 0⟩ 4).map Prod.fst :=
  ⟨(c2_canvas_size_and_offsets ⟨0, 0, 0, 0⟩ 4 (by norm_num [NiceBox])).1,
   ((c2_canvas_size_and_offsets ⟨0, 0, 0, 0⟩ 4 (by norm_num [NiceBox])).2.1).1⟩

/-- Closed forms of the four crop pixels of a well-formed box whose corners
stay strictly inside the tiled range: the tile index cancels, the whole-tile
offset shifts out of the floor, and each pixel is a floor of a global
coordinate minus the tile offset of the box. -/
lemma px_eqs {b : Box} (z : ℕ) (hn : NiceBox b)
    (hx1 : xnorm b.lonMax < 1) (hy0 : 0 ≤ ynorm b.latMax) (hy1 : ynorm b.latMin < 1) :
    leftPx b z = ⌊xnorm b.lonMin * 2 ^ z * 256⌋ - 256 * tileX b.lonMin z ∧
    rightPx b z = ⌊xnorm b.lonMax * 2 ^ z * 256⌋ - 256 * tileX b.lonMin z ∧
    bottomPx b z = ⌊gpixY z b.latMin⌋ - 256 * tileY b.latMax z ∧
    topPx b z = ⌊gpixY z b.latMax⌋ - 256 * tileY b.latMax z := by
  obtain ⟨hb1, hb2, hb3, hb4, hb5, hb6⟩ := hn
  have hz : (0 : ℝ) < 2 ^ z := by positivity
  have hoff := offsets_nice z ⟨hb1, hb2, hb3, hb4, hb5, hb6⟩
  have hx0 : 0 ≤ xnorm b.lonMin := by
    unfold xnorm
    linarith
  have hx0' : 0 ≤ xnorm b.lonMax := le_trans hx0 (xnorm_mono hb2)
  have hx1' : xnorm b.lonMin < 1 := lt_of_le_of_lt (xnorm_mono hb2) hx1
  have hlatm1 : (-90 : ℝ) < b.latMin := by norm_num at hb4 ⊢; linarith
  have hlatm2 : b.latMin < 90 := by norm_num at hb6 ⊢; linarith
  have hlatx1 : (-90 : ℝ) < b.latMax := by norm_num at hb4 ⊢; linarith
  have hlatx2 : b.latMax < 90 := by norm_num at hb6 ⊢; linarith
  have hyanti : ynorm b.latMax ≤ ynorm b.latMin := ynorm_anti hlatm1 hlatx2 hb5
  have hy0m : 0 ≤ ynorm b.latMin := le_trans hy0 hyanti
  have hy1x : ynorm b.latMax < 1 := lt_of_le_of_lt hyanti hy1
  have hxfloor : (tileX b.lonMin z : ℝ) ≤ xnorm b.lonMin * 2 ^ z := by
    rw [tileX_eq_floor z hx0 hx1']
    exact Int.floor_le _
  have hxcond2 : (tileX b.lonMin z : ℝ) ≤ xnorm b.lonMax * 2 ^ z := by
    refine le_trans hxfloor ?_
    have := xnorm_mono hb2
    nlinarith
  have hycast : (tileY b.latMax z : ℝ) ≤ (tileY b.latMin z : ℝ) := by
    exact_mod_cast tileY_mono_ynorm z hyanti
  have hGm := gpixY_bounds z hlatm1 hlatm2 hy0m hy1
  have hGx := gpixY_bounds z hlatx1 hlatx2 hy0 hy1x
  have hycond1 : (tileY b.latMax z : ℝ) * 256 ≤ gpixY z b.latMin := by
    nlinarith [hGm.1]
  have hycond2 : (tileY b.latMax z : ℝ) * 256 ≤ gpixY z b.latMax := hGx.1
  refine ⟨?_, ?_, ?_, ?_⟩
  · rw [leftPx, scriptPixel, hoff.1, hoff.2.1]
    exact pixel_x_eq z _ _ _ _ (by rw [hoff.1] at *; exact hxfloor)
  · rw [rightPx, scriptPixel, hoff.1, hoff.2.1]
    exact pixel_x_eq z _ _ _ _ hxcond2
  · rw [bottomPx, scriptPixel, hoff.1, hoff.2.1]
    exact pixel_y_eq z _ _ _ _ hycond1
  · rw [topPx, scriptPixel, hoff.1, hoff.2.1]
    exact pixel_y_eq z _ _ _ _ hycond2

/-- The crop sizes of a well-formed box in closed form: differences of floors
of global pixel coordinates, independent of the canvas offsets. -/
lemma crop_sizes {b : Box} (z : ℕ) (hn : NiceBox b) (hx1 : xnorm b.lonMax < 1)
    (hy0 : 0 ≤ ynorm b.latMax) (hy1 : ynorm b.latMin < 1) :
    croppedWidth b z = ⌊xnorm b.lonMax * 2 ^ z * 256⌋ - ⌊xnorm b.lonMin * 2 ^ z * 256⌋ ∧
    croppedHeight b z = ⌊gpixY z b.latMin⌋ - ⌊gpixY z b.latMax⌋ := by
  obtain ⟨hL, hR, hB, hT⟩ := px_eqs z hn hx1 hy0 hy1
  constructor
  · unfold croppedWidth
    rw [hR, hL]
    ring
  · unfold croppedHeight
    rw [hB, hT]
    ring

/-- C5: crop bounds are monotone: for two bounding boxes at the same zoom with
the second containing the first (corners strictly inside the tiled range),
the cropped pixel width and height of the larger box are at least those of
the smaller box. -/
theorem c5_crop_monotone (b1 b2 : Box) (z : ℕ)
    (h1 : -180 ≤ b2.lonMin) (h2 : b2.lonMin ≤ b1.lonMin) (h3 : b1.lonMin ≤ b1.lonMax)
    (h4 : b1.lonMax ≤ b2.lonMax) (h5 : b2.lonMax < 180)
    (h6 : -85.051129 ≤ b2.latMin) (h7 : b2.latMin ≤ b1.latMin)
    (h8 : b1.latMin ≤ b1.latMax) (h9 : b1.latMax ≤ b2.latMax)
    (h10 : b2.latMax ≤ 85.051129)
    (hy0 : 0 ≤ ynorm b2.latMax) (hy1 : ynorm b2.latMin < 1) :
    croppedWidth b1 z ≤ croppedWidth b2 z ∧
      croppedHeight b1 z ≤ croppedHeight b2 z := by
  have hz : (0 : ℝ) < 2 ^ z := by positivity
  have hn2 : NiceBox b2 :=
    ⟨h1, le_trans h2 (le_trans h3 h4), le_of_lt h5, h6,
      le_trans h7 (le_trans h8 h9), h10⟩
  have hn1 : NiceBox b1 :=
    ⟨le_trans h1 h2, h3, le_trans h4 (le_of_lt h5), le_trans h6 h7, h8,
      le_trans h9 h10⟩
  have hx2 : xnorm b2.lonMax < 1 := by
    unfold xnorm
    linarith
  have hx1b : xnorm b1.lonMax < 1 := lt_of_le_of_lt (xnorm_mono h4) hx2
  have hm90a : (-90 : ℝ) < b2.latMin := by norm_num at h6 ⊢; linarith
  have hm90b : (-90 : ℝ) < b1.latMin := by linarith
  have hm90c : (-90 : ℝ) < b1.latMax := by linarith
  have hm90d : (-90 : ℝ) < b2.latMax := by linarith
  have h90d : b2.latMax < 90 := by norm_num at h10 ⊢; linarith
  have h90c : b1.latMax < 90 := by linarith
  have h90b : b1.latMin < 90 := by linarith
  have h90a : b2.latMin < 90 := by linarith
  have hy0b1 : 0 ≤ ynorm b1.latMax := le_trans hy0 (ynorm_anti hm90c h90d h9)
  have hy1b1 : ynorm b1.latMin < 1 := lt_of_le_of_lt (ynorm_anti hm90a h90b h7) hy1
  have hy0m1 : 0 ≤ ynorm b1.latMin := le_trans hy0b1 (ynorm_anti hm90b h90c h8)
  have hy1x1 : ynorm b1.latMax < 1 :=
    lt_of_le_of_lt (ynorm_anti hm90b h90c h8) hy1b1
  have hy0m2 : 0 ≤ ynorm b2.latMin :=
    le_trans hy0 (ynorm_anti hm90a h90d (le_trans h7 (le_trans h8 h9)))
  have hy1x2 : ynorm b2.latMax < 1 :=
    lt_of_le_of_lt (ynorm_anti hm90a h90d (le_trans h7 (le_trans h8 h9))) hy1
  obtain ⟨hw1, hh1⟩ := crop_sizes z hn1 hx1b hy0b1 hy1b1
  obtain ⟨hw2, hh2⟩ := crop_sizes z hn2 hx2 hy0 hy1
  constructor
  · rw [hw1, hw2]
    have e1 : ⌊xnorm b1.lonMax * 2 ^ z * 256⌋ ≤ ⌊xnorm b2.lonMax * 2 ^ z * 256⌋ := by
      apply Int.floor_le_floor
      have := xnorm_mono h4
      nlinarith
    have e2 : ⌊xnorm b2.lonMin * 2 ^ z * 256⌋ ≤ ⌊xnorm b1.lonMin * 2 ^ z * 256⌋ := by
      apply Int.floor_le_floor
      have := xnorm_mono h2
      nlinarith
    omega
  · rw [hh1, hh2]
    have e1 : ⌊gpixY z b1.latMin⌋ ≤ ⌊gpixY z b2.latMin⌋ :=
      Int.floor_le_floor (gpixY_anti z hm90a h90a hm90b h90b hy0m2 hy1 hy0m1 hy1b1 h7)
    have e2 : ⌊gpixY z b2.latMax⌋ ≤ ⌊gpixY z b1.latMax⌋ :=
      Int.floor_le_floor (gpixY_anti z hm90c h90c hm90d h90d hy0b1 hy1x1 hy0 hy1x2 h9)
    omega

/-- Witness for C5 on a pair of nested boxes along the equator. -/
theorem c5_crop_monotone_witness :
    croppedWidth ⟨0, 0, 0, 10⟩ 4 ≤ croppedWidth ⟨0, -20, 0, 30⟩ 4 ∧
      croppedHeight ⟨0, 0, 0, 10⟩ 4 ≤ croppedHeight ⟨0, -20, 0, 30⟩ 4 :=
  c5_crop_monotone ⟨0, 0, 0, 10⟩ ⟨0, -20, 0, 30⟩ 4 (by norm_num) (by norm_num)
    (by norm_num) (by norm_num) (by norm_num) (by norm_num) (by norm_num)
    (by norm_num) (by norm_num) (by norm_num)
    (by show (0 : ℝ) ≤ ynorm 0; rw [ynorm_zero]; norm_num)
    (by show ynorm 0 < 1; rw [ynorm_zero]; norm_num)

/-- Lipschitz bound for the sine function, used to move from the irrational
radian angles to nearby rational proxies. -/
lemma abs_sin_sub_sin (x q : ℝ) : |Real.sin x - Real.sin q| ≤ |x - q| := by
  rw [Real.sin_sub_sin, abs_mul, abs_mul]
  have h1 : |Real.sin ((x - q) / 2)| ≤ |(x - q) / 2| := Real.abs_sin_le_abs
  have h2 : |Real.cos ((x + q) / 2)| ≤ 1 := Real.abs_cos_le_one _
  have h4 : |(x - q) / 2| = |x - q| / 2 := by
    rw [abs_div]
    norm_num
  have h3 : |(2 : ℝ)| = 2 := by norm_num
  rw [h3]
  nlinarith [abs_nonneg (Real.sin ((x - q) / 2)), abs_nonneg (Real.cos ((x + q) / 2)),
    abs_nonneg (x - q)]

/-- Taylor bound at the quarter angle of the rational proxy for 47.381 deg. -/
lemma sin_u1 : 0.20516 ≤ Real.sin 0.2067386 ∧ Real.sin 0.2067386 ≤ 0.20537 := by
  have hu : |(0.2067386 : ℝ)| ≤ 1 := by rw [abs_of_nonneg (by norm_num)]; norm_num
  have hb := Real.sin_bound hu
  rw [abs_of_nonneg (by norm_num : (0 : ℝ) ≤ 0.2067386)] at hb
  rw [abs_le] at hb
  constructor <;> nlinarith [hb.1, hb.2]

lemma cos_u1 : 0.97853 ≤ Real.cos 0.2067386 ∧ Real.cos 0.2067386 ≤ 0.97873 := by
  have hu : |(0.2067386 : ℝ)| ≤ 1 := by rw [abs_of_nonneg (by norm_num)]; norm_num
  have hb := Real.cos_bound hu
  rw [abs_of_nonneg (by norm_num : (0 : ℝ) ≤ 0.2067386)] at hb
  rw [abs_le] at hb
  constructor <;> nlinarith [hb.1, hb.2]

lemma sin_2u1 : 0.40151 ≤ Real.sin 0.4134772 ∧ Real.sin 0.4134772 ≤ 0.40203 := by
  have h2u : (0.4134772 : ℝ) = 2 * 0.2067386 := by norm_num
  rw [h2u, Real.sin_two_mul]
  have hs := sin_u1
  have hc := cos_u1
  constructor <;> nlinarith [hs.1, hs.2, hc.1, hc.2]

lemma cos_2u1 : 0.91504 ≤ Real.cos 0.4134772 ∧ Real.cos 0.4134772 ≤ 0.91583 := by
  have h2u : (0.4134772 : ℝ) = 2 * 0.2067386 := by norm_num
  rw [h2u, Real.cos_two_mul]
  have hc := cos_u1
  constructor <;> nlinarith [hc.1, hc.2]

lemma sin_q1 : 0.73478 ≤ Real.sin 0.8269544 ∧ Real.sin 0.8269544 ≤ 0.73639 := by
  have h2u : (0.8269544 : ℝ) = 2 * 0.4134772 := by norm_num
  rw [h2u, Real.sin_two_mul]
  have hs := sin_2u1
  have hc := cos_2u1
  constructor <;> nlinarith [hs.1, hs.2, hc.1, hc.2]

lemma sinlat_473 : 0.7347 ≤ sinlat 47.381 ∧ sinlat 47.381 ≤ 0.7364 := by
  have hpi1 := Real.pi_gt_d6
  have hpi2 := Real.pi_lt_d6
  have hq : |47.381 * Real.pi / 180 - 0.8269544| ≤ 0.0000002 := by
    rw [abs_le]
    constructor <;> nlinarith
  have hls := le_trans (abs_sin_sub_sin (47.381 * Real.pi / 180) 0.8269544) hq
  rw [abs_le] at hls
  have hsq := sin_q1
  unfold sinlat
  constructor <;> nlinarith [hls.1, hls.2, hsq.1, hsq.2]

lemma sin_u2 : 0.21174 ≤ Real.sin 0.2134799 ∧ Real.sin 0.2134799 ≤ 0.21197 := by
  have hu : |(0.2134799 : ℝ)| ≤ 1 := by rw [abs_of_nonneg (by norm_num)]; norm_num
  have hb := Real.sin_bound hu
  rw [abs_of_nonneg (by norm_num : (0 : ℝ) ≤ 0.2134799)] at hb
  rw [abs_le] at hb
  constructor <;> nlinarith [hb.1, hb.2]

lemma cos_u2 : 0.97710 ≤ Real.cos 0.2134799 ∧ Real.cos 0.2134799 ≤ 0.97733 := by
  have hu : |(0.2134799 : ℝ)| ≤ 1 := by rw [abs_of_nonneg (by norm_num)]; norm_num
  have hb := Real.cos_bound hu
  rw [abs_of_nonneg (by norm_num : (0 : ℝ) ≤ 0.2134799)] at hb
  rw [abs_le] at hb
  constructor <;> nlinarith [hb.1, hb.2]

lemma sin_2u2 : 0.41378 ≤ Real.sin 0.4269598 ∧ Real.sin 0.4269598 ≤ 0.41433 := by
  have h2u : (0.4269598 : ℝ) = 2 * 0.2134799 := by norm_num
  rw [h2u, Real.sin_two_mul]
  have hs := sin_u2
  have hc := cos_u2
  constructor <;> nlinarith [hs.1, hs.2, hc.1, hc.2]

lemma cos_2u2 : 0.90944 ≤ Real.cos 0.4269598 ∧ Real.cos 0.4269598 ≤ 0.91035 := by
  have h2u : (0.4269598 : ℝ) = 2 * 0.2134799 := by norm_num
  rw [h2u, Real.cos_two_mul]
  have hc := cos_u2
  constructor <;> nlinarith [hc.1, hc.2]

lemma sin_q2 : 0.75261 ≤ Real.sin 0.8539196 ∧ Real.sin 0.8539196 ≤ 0.75438 := by
  have h2u : (0.8539196 : ℝ) = 2 * 0.4269598 := by norm_num
  rw [h2u, Real.sin_two_mul]
  have hs := sin_2u2
  have hc := cos_2u2
  constructor <;> nlinarith [hs.1, hs.2, hc.1, hc.2]

lemma sinlat_489 : 0.7526 ≤ sinlat 48.926 ∧ sinlat 48.926 ≤ 0.7544 := by
  have hpi1 := Real.pi_gt_d6
  have hpi2 := Real.pi_lt_d6
  have hq : |48.926 * Real.pi / 180 - 0.8539196| ≤ 0.0000003 := by
    rw [abs_le]
    constructor <;> nlinarith
  have hls := le_trans (abs_sin_sub_sin (48.926 * Real.pi / 180) 0.8539196) hq
  rw [abs_le] at hls
  have hsq := sin_q2
  unfold sinlat
  constructor <;> nlinarith [hls.1, hls.2, hsq.1, hsq.2]

/-- Numeric facts about the normalized Mercator coordinates of the two
latitudes of the example box: both lie strictly inside (0, 1) and they differ
by more than one tile row at zoom 10. -/
lemma c7_ynorm_facts :
    0 ≤ ynorm (48.926 : ℝ) ∧ ynorm (48.926 : ℝ) < 1 ∧
    0 ≤ ynorm (47.381 : ℝ) ∧ ynorm (47.381 : ℝ) < 1 ∧
    ynorm (48.926 : ℝ) + 1 / 1024 ≤ ynorm (47.381 : ℝ) := by
  have hpi1 := Real.pi_gt_d6
  have hpi2 := Real.pi_lt_d6
  have hpp : (0 : ℝ) < Real.pi := Real.pi_pos
  obtain ⟨hs1a, hs1b⟩ := sinlat_473
  obtain ⟨hs2a, hs2b⟩ := sinlat_489
  set s1 := sinlat 47.381 with hs1
  set s2 := sinlat 48.926 with hs2
  have hd1 : (0 : ℝ) < 1 - s1 := by linarith
  have hd2 : (0 : ℝ) < 1 - s2 := by linarith
  set r1 : ℝ := (1 + s1) / (1 - s1) with hr1
  set r2 : ℝ := (1 + s2) / (1 - s2) with hr2
  have hr1pos : (0 : ℝ) < r1 := div_pos (by linarith) hd1
  have hr2pos : (0 : ℝ) < r2 := div_pos (by linarith) hd2
  have hr1gt : (1 : ℝ) < r1 := by
    rw [hr1, lt_div_iff₀ hd1]
    linarith
  have hr2gt : (1 : ℝ) < r2 := by
    rw [hr2, lt_div_iff₀ hd2]
    linarith
  have hr1le : r1 ≤ 6.59 := by
    rw [hr1, div_le_iff₀ hd1]
    nlinarith
  have hr2ge : (7.08 : ℝ) ≤ r2 := by
    rw [hr2, le_div_iff₀ hd2]
    nlinarith
  have hr2le : r2 ≤ 7.15 := by
    rw [hr2, div_le_iff₀ hd2]
    nlinarith
  -- log bounds
  have hl1pos : 0 < Real.log r1 := Real.log_pos hr1gt
  have hl2pos : 0 < Real.log r2 := Real.log_pos hr2gt
  have hl1up : Real.log r1 ≤ 5.59 := by
    have := Real.log_le_sub_one_of_pos hr1pos
    linarith
  have hl2up : Real.log r2 ≤ 6.15 := by
    have := Real.log_le_sub_one_of_pos hr2pos
    linarith
  -- the gap
  have hgap : Real.pi / 256 ≤ Real.log r2 - Real.log r1 := by
    have hdivpos : (0 : ℝ) < r1 / r2 := div_pos hr1pos hr2pos
    have h1 : Real.log (r1 / r2) ≤ r1 / r2 - 1 := Real.log_le_sub_one_of_pos hdivpos
    have h2 : Real.log (r1 / r2) = Real.log r1 - Real.log r2 :=
      Real.log_div hr1pos.ne' hr2pos.ne'
    have h3 : r1 / r2 ≤ 6.59 / 7.08 := by
      apply div_le_div₀ (by norm_num) hr1le (by norm_num) hr2ge
    linarith
  have hy4pi : (0 : ℝ) < 4 * Real.pi := by positivity
  refine ⟨?_, ?_, ?_, ?_, ?_⟩
  · unfold ynorm
    rw [← hs2, ← hr2]
    have : Real.log r2 / (4 * Real.pi) ≤ 1 / 2 := by
      rw [div_le_iff₀ hy4pi]
      linarith
    linarith
  · unfold ynorm
    rw [← hs2, ← hr2]
    have : 0 < Real.log r2 / (4 * Real.pi) := div_pos hl2pos hy4pi
    linarith
  · unfold ynorm
    rw [← hs1, ← hr1]
    have : Real.log r1 / (4 * Real.pi) ≤ 1 / 2 := by
      rw [div_le_iff₀ hy4pi]
      linarith
    linarith
  · unfold ynorm
    rw [← hs1, ← hr1]
    have : 0 < Real.log r1 / (4 * Real.pi) := div_pos hl1pos hy4pi
    linarith
  · unfold ynorm
    rw [← hs1, ← hr1, ← hs2, ← hr2]
    have hd : 1 / 1024 ≤ (Real.log r2 - Real.log r1) / (4 * Real.pi) := by
      rw [le_div_iff₀ hy4pi]
      linarith
    have he : (Real.log r2 - Real.log r1) / (4 * Real.pi)
        = Real.log r2 / (4 * Real.pi) - Real.log r1 / (4 * Real.pi) := by
      ring
    linarith [hd, he.symm.le, he.le]

/-- The cropped image never exceeds the uncropped canvas: the crop pixels of
a well-formed box stay inside the pixel band of the enumerated tile
rectangle. -/
lemma crop_le_canvas {b : Box} (z : ℕ) (hn : NiceBox b)
    (hx1 : xnorm b.lonMax < 1) (hy0 : 0 ≤ ynorm b.latMax) (hy1 : ynorm b.latMin < 1) :
    croppedWidth b z ≤ canvasWidth b z ∧ croppedHeight b z ≤ canvasHeight b z := by
  obtain ⟨hb1, hb2, hb3, hb4, hb5, hb6⟩ := hn
  have hz : (0 : ℝ) < 2 ^ z := by positivity
  obtain ⟨hw, hh⟩ := crop_sizes z ⟨hb1, hb2, hb3, hb4, hb5, hb6⟩ hx1 hy0 hy1
  have hts := scriptTiles_nice z ⟨hb1, hb2, hb3, hb4, hb5, hb6⟩
  have hX := nice_x_le z ⟨hb1, hb2, hb3, hb4, hb5, hb6⟩
  have hY := nice_y_le z ⟨hb1, hb2, hb3, hb4, hb5, hb6⟩
  have hcw : canvasWidth b z = (tileX b.lonMax z - tileX b.lonMin z + 1) * 256 := by
    unfold canvasWidth cols
    rw [hts, maxFst_tileRect hX hY, minFst_tileRect hX hY]
    rfl
  have hch : canvasHeight b z = (tileY b.latMin z - tileY b.latMax z + 1) * 256 := by
    unfold canvasHeight rows
    rw [hts, maxSnd_tileRect hX hY, minSnd_tileRect hX hY]
    rfl
  have hx0 : 0 ≤ xnorm b.lonMin := by
    unfold xnorm
    linarith
  have hx0' : 0 ≤ xnorm b.lonMax := le_trans hx0 (xnorm_mono hb2)
  have hx1' : xnorm b.lonMin < 1 := lt_of_le_of_lt (xnorm_mono hb2) hx1
  have hlatm1 : (-90 : ℝ) < b.latMin := by norm_num at hb4 ⊢; linarith
  have hlatm2 : b.latMin < 90 := by norm_num at hb6 ⊢; linarith
  have hlatx1 : (-90 : ℝ) < b.latMax := by norm_num at hb4 ⊢; linarith
  have hlatx2 : b.latMax < 90 := by norm_num at hb6 ⊢; linarith
  have hyanti : ynorm b.latMax ≤ ynorm b.latMin := ynorm_anti hlatm1 hlatx2 hb5
  have hy0m : 0 ≤ ynorm b.latMin := le_trans hy0 hyanti
  have hy1x : ynorm b.latMax < 1 := lt_of_le_of_lt hyanti hy1
  constructor
  · rw [hw, hcw]
    have e1 : ⌊xnorm b.lonMax * 2 ^ z * 256⌋ < (tileX b.lonMax z + 1) * 256 := by
      rw [Int.floor_lt]
      have h := Int.lt_floor_add_one (xnorm b.lonMax * 2 ^ z)
      rw [← tileX_eq_floor z hx0' hx1] at h
      push_cast
      nlinarith
    have e2 : tileX b.lonMin z * 256 ≤ ⌊xnorm b.lonMin * 2 ^ z * 256⌋ := by
      rw [Int.le_floor]
      have h := Int.floor_le (xnorm b.lonMin * 2 ^ z)
      rw [← tileX_eq_floor z hx0 hx1'] at h
      push_cast
      nlinarith
    omega
  · rw [hh, hch]
    have hGm := gpixY_bounds z hlatm1 hlatm2 hy0m hy1
    have hGx := gpixY_bounds z hlatx1 hlatx2 hy0 hy1x
    have e1 : ⌊gpixY z b.latMin⌋ < (tileY b.latMin z + 1) * 256 := by
      rw [Int.floor_lt]
      push_cast
      nlinarith [hGm.2]
    have e2 : tileY b.latMax z * 256 ≤ ⌊gpixY z b.latMax⌋ := by
      rw [Int.le_floor]
      push_cast
      nlinarith [hGx.1]
    omega

/-- When the two corner latitudes of a well-formed box fall in different tile
rows, the cropped height is strictly positive. -/
lemma crop_height_pos {b : Box} (z : ℕ) (hn : NiceBox b) (hx1 : xnorm b.lonMax < 1)
    (hy0 : 0 ≤ ynorm b.latMax) (hy1 : ynorm b.latMin < 1)
    (hrow : tileY b.latMax z + 1 ≤ tileY b.latMin z) : 0 < croppedHeight b z := by
  obtain ⟨hb1, hb2, hb3, hb4, hb5, hb6⟩ := hn
  obtain ⟨_, hh⟩ := crop_sizes z ⟨hb1, hb2, hb3, hb4, hb5, hb6⟩ hx1 hy0 hy1
  have hlatm1 : (-90 : ℝ) < b.latMin := by norm_num at hb4 ⊢; linarith
  have hlatm2 : b.latMin < 90 := by norm_num at hb6 ⊢; linarith
  have hlatx1 : (-90 : ℝ) < b.latMax := by norm_num at hb4 ⊢; linarith
  have hlatx2 : b.latMax < 90 := by norm_num at hb6 ⊢; linarith
  have hyanti : ynorm b.latMax ≤ ynorm b.latMin := ynorm_anti hlatm1 hlatx2 hb5
  have hy0m : 0 ≤ ynorm b.latMin := le_trans hy0 hyanti
  have hy1x : ynorm b.latMax < 1 := lt_of_le_of_lt hyanti hy1
  have hGm := gpixY_bounds z hlatm1 hlatm2 hy0m hy1
  have hGx := gpixY_bounds z hlatx1 hlatx2 hy0 hy1x
  have e1 : tileY b.latMin z * 256 ≤ ⌊gpixY z b.latMin⌋ := by
    rw [Int.le_floor]
    push_cast
    nlinarith [hGm.1]
  have e2 : ⌊gpixY z b.latMax⌋ < (tileY b.latMax z + 1) * 256 := by
    rw [Int.floor_lt]
    push_cast
    nlinarith [hGx.2]
  rw [hh]
  omega

/-- C7: for the bounding box (47.381, 8.3795) to (48.926, 10.692) at zoom 10
(downloader.py), the computed tile set is nonempty, and the cropped image has
strictly positive width and height, each at most the uncropped canvas size. -/
theorem c7_example_box :
    0 < (scriptTiles ⟨47.381, 8.3795, 48.926, 10.692⟩ 10).length ∧
    0 < croppedWidth ⟨47.381, 8.3795, 48.926, 10.692⟩ 10 ∧
    croppedWidth ⟨47.381, 8.3795, 48.926, 10.692⟩ 10
        ≤ canvasWidth ⟨47.381, 8.3795, 48.926, 10.692⟩ 10 ∧
    0 < croppedHeight ⟨47.381, 8.3795, 48.926, 10.692⟩ 10 ∧
    croppedHeight ⟨47.381, 8.3795, 48.926, 10.692⟩ 10
        ≤ canvasHeight ⟨47.381, 8.3795, 48.926, 10.692⟩ 10 := by
  have hyf := c7_ynorm_facts
  have hn : NiceBox ⟨47.381, 8.3795, 48.926, 10.692⟩ := by
    unfold NiceBox
    norm_num
  have hx1 : xnorm (Box.mk 47.381 8.3795 48.926 10.692).lonMax < 1 := by
    unfold xnorm
    norm_num
  have hy0 : 0 ≤ ynorm (Box.mk 47.381 8.3795 48.926 10.692).latMax := hyf.1
  have hy1 : ynorm (Box.mk 47.381 8.3795 48.926 10.692).latMin < 1 := hyf.2.2.2.1
  refine ⟨?_, ?_, (crop_le_canvas 10 hn hx1 hy0 hy1).1, ?_,
    (crop_le_canvas 10 hn hx1 hy0 hy1).2⟩
  · have hmem : tileF (8.3795 : ℝ) (48.926 : ℝ) 10
        ∈ scriptTiles ⟨47.381, 8.3795, 48.926, 10.692⟩ 10 := by
      rw [scriptTiles_nice 10 hn]
      exact ul_mem_tileRect (nice_x_le 10 hn) (nice_y_le 10 hn)
    exact List.length_pos_of_mem hmem
  · obtain ⟨hw, _⟩ := crop_sizes 10 hn hx1 hy0 hy1
    have hp1 : (Box.mk (47.381 : ℝ) 8.3795 48.926 10.692).lonMax = (10.692 : ℝ) := rfl
    have hp2 : (Box.mk (47.381 : ℝ) 8.3795 48.926 10.692).lonMin = (8.3795 : ℝ) := rfl
    rw [hp1, hp2] at hw
    have ha : xnorm (8.3795 : ℝ) * 2 ^ 10 * 256 + 1 ≤ xnorm (10.692 : ℝ) * 2 ^ 10 * 256 := by
      unfold xnorm
      norm_num
    have hfl : ⌊xnorm (8.3795 : ℝ) * 2 ^ 10 * 256⌋ + 1
        ≤ ⌊xnorm (10.692 : ℝ) * 2 ^ 10 * 256⌋ := by
      calc ⌊xnorm (8.3795 : ℝ) * 2 ^ 10 * 256⌋ + 1
          = ⌊xnorm (8.3795 : ℝ) * 2 ^ 10 * 256 + 1⌋ := (Int.floor_add_one _).symm
      _ ≤ _ := Int.floor_le_floor ha
    rw [hw]
    omega
  · have hrow : tileY (Box.mk 47.381 8.3795 48.926 10.692).latMax 10 + 1
        ≤ tileY (Box.mk 47.381 8.3795 48.926 10.692).latMin 10 := by
      have e2 : tileY (48.926 : ℝ) 10 = ⌊ynorm (48.926 : ℝ) * 2 ^ 10⌋ :=
        tileY_eq_floor 10 hyf.1 hyf.2.1
      have e1 : tileY (47.381 : ℝ) 10 = ⌊ynorm (47.381 : ℝ) * 2 ^ 10⌋ :=
        tileY_eq_floor 10 hyf.2.2.1 hyf.2.2.2.1
      show tileY (48.926 : ℝ) 10 + 1 ≤ tileY (47.381 : ℝ) 10
      rw [e1, e2]
      have hstep : ynorm (48.926 : ℝ) * 2 ^ 10 + 1 ≤ ynorm (47.381 : ℝ) * 2 ^ 10 := by
        have hd := hyf.2.2.2.2
        nlinarith
      calc ⌊ynorm (48.926 : ℝ) * 2 ^ 10⌋ + 1
          = ⌊ynorm (48.926 : ℝ) * 2 ^ 10 + 1⌋ := (Int.floor_add_one _).symm
      _ ≤ _ := Int.floor_le_floor hstep
    exact crop_height_pos 10 hn hx1 hy0 hy1 hrow

end OSMDL
